import Mathlib

/-!
# OpenCorr: the GPU ICGN sample driver and the table reader/writer

A shallow embedding of `samples/test_2d_dic_gpu_icgn2.cpp` (the function `main`)
and of `src/oc_io.cpp` (`IO2D::loadTable2D`, `IO2D::loadPOI2D`,
`IO2D::saveTable2D`, `IO2D::saveDeformationTable2D`).

Conventions of the embedding.

* `float` values are only copied, printed and parsed by the embedded code, so they
  are elements of an arbitrary type `F`.  Printing with `std::fixed` and
  `std::setprecision(8)` is a function `fmt : F → List Char`; `std::stof` is a
  function `stof : List Char → Option F`, `none` standing for a thrown exception.
* A `std::string` is a `List Char`; a text file is the list of its characters.
* An access outside a `std::vector` or a `new[]` array is undefined behaviour in
  C++; the embedding stops there: the driver returns `none`, the reader returns the
  fault `out_of_bounds`.  A loop that may not end takes a bound on its passes and
  returns the fault `no_fuel` when the bound is reached.
* `int` sizes, indices and products of the driver are natural numbers or integers
  without wrap-around (images of fewer than `2 ^ 31` pixels); the `size_t` positions
  of `loadPOI2D`, where `string::npos` enters a sum, are taken modulo `2 ^ 64`.
* The headers `oc_poi.h`, `oc_point.h`, `oc_image.h` and `opencorr_gpu.h`, and the
  bodies of `FeatureAffine2D::compute`, `ICGN2D1GPU` and `ICGN2D2GPU` are not among
  the sources.  The record types are modelled from the way the sources use them,
  the three procedures are parameters.
-/

namespace OpenCorr

/-! ## Data model -/

/-- Modelled from the spec: `DeformationVector2D` of `oc_poi.h` (not among the
sources).  Twelve parameters; the names are the ones `main` assigns and
`saveDeformationTable2D` prints as column titles. -/
structure DeformationVector2D (F : Type) where
  u : F
  ux : F
  uy : F
  uxx : F
  uxy : F
  uyy : F
  v : F
  vx : F
  vy : F
  vxx : F
  vxy : F
  vyy : F
deriving DecidableEq, Repr

/-- Modelled from the spec: the array view `deformation.p` of the twelve parameters,
in the order of the column titles of `saveDeformationTable2D`. -/
def DeformationVector2D.p {F : Type} (d : DeformationVector2D F) : List F :=
  [d.u, d.ux, d.uy, d.uxx, d.uxy, d.uyy, d.v, d.vx, d.vy, d.vxx, d.vxy, d.vyy]

/-- Modelled from the spec: `Result2D` of `oc_poi.h` (not among the sources): the six
metrics `u0, v0, zncc, iteration, convergence, feature`. -/
structure Result2D (F : Type) where
  u0 : F
  v0 : F
  zncc : F
  iteration : F
  convergence : F
  feature : F
deriving DecidableEq, Repr

/-- Modelled from the spec: the array view `result.r` of the six metrics, in the
order of the column titles of `saveTable2D`. -/
def Result2D.r {F : Type} (s : Result2D F) : List F :=
  [s.u0, s.v0, s.zncc, s.iteration, s.convergence, s.feature]

/-- Modelled from the spec: the assignment `result.r[i] = v`; an index outside the
array is a fault. -/
def Result2D.setR {F : Type} (s : Result2D F) (i : Nat) (v : F) : Option (Result2D F) :=
  match i with
  | 0 => some { s with u0 := v }
  | 1 => some { s with v0 := v }
  | 2 => some { s with zncc := v }
  | 3 => some { s with iteration := v }
  | 4 => some { s with convergence := v }
  | 5 => some { s with feature := v }
  | _ => none

/-- Modelled from the spec: `StrainVector2D` of `oc_poi.h` (not among the sources):
the three components `exx, eyy, exy` that `saveMap2D` reads. -/
structure StrainVector2D (F : Type) where
  exx : F
  eyy : F
  exy : F
deriving DecidableEq, Repr

/-- Modelled from the spec: the array view `strain.e`, in the order of the column
titles of `saveTable2D`. -/
def StrainVector2D.e {F : Type} (s : StrainVector2D F) : List F :=
  [s.exx, s.eyy, s.exy]

/-- Modelled from the spec: the assignment `strain.e[i] = v`; an index outside the
array is a fault. -/
def StrainVector2D.setE {F : Type} (s : StrainVector2D F) (i : Nat) (v : F) :
    Option (StrainVector2D F) :=
  match i with
  | 0 => some { s with exx := v }
  | 1 => some { s with eyy := v }
  | 2 => some { s with exy := v }
  | _ => none

/-- Modelled from the spec: `Point2D` of `oc_point.h` (not among the sources). -/
structure Point2D (F : Type) where
  x : F
  y : F
deriving DecidableEq, Repr

/-- Modelled from the spec: `operator+` of `Point2D`, componentwise. -/
def Point2D.add {F : Type} [Add F] (a b : Point2D F) : Point2D F :=
  { x := a.x + b.x, y := a.y + b.y }

/-- Modelled from the spec: `POI2D` of `oc_poi.h` (not among the sources): a location
with a deformation vector, result metrics and strain. -/
structure POI2D (F : Type) where
  x : F
  y : F
  deformation : DeformationVector2D F
  result : Result2D F
  strain : StrainVector2D F
deriving DecidableEq, Repr

/-- Modelled from the spec: the constructor `POI2D(x, y)`.  The spec creates a POI
"with only a location" and speaks of the deformation being "at zero" until the
estimator writes it, so every other field starts at zero. -/
def POI2D.create {F : Type} [Zero F] (x y : F) : POI2D F :=
  { x := x, y := y,
    deformation := ⟨0, 0, 0, 0, 0, 0, 0, 0, 0, 0, 0, 0⟩,
    result := ⟨0, 0, 0, 0, 0, 0⟩,
    strain := ⟨0, 0, 0⟩ }

/-- Modelled from the spec: `Image2D` of `oc_image.h` (not among the sources): the
dimensions and the intensity matrix `eg_mat(row, column)`. -/
structure Image2D (F : Type) where
  width : Nat
  height : Nat
  eg_mat : Nat → Nat → F

/-- Read `eg_mat(r, c)`; a coefficient outside the matrix is a fault. -/
def Image2D.pixel {F : Type} (img : Image2D F) (r c : Nat) : Option F :=
  if r < img.height ∧ c < img.width then some (img.eg_mat r c) else none

/-- Modelled from the spec: `ICGNImage` of `opencorr_gpu.h` (not among the sources).
A cell of `data` that was allocated and not yet written is `none`. -/
structure ICGNImage (F : Type) where
  w : Nat
  h : Nat
  data : List (Option F)
deriving DecidableEq, Repr

/-- Modelled from the spec: `ICGNPOI` of `opencorr_gpu.h` (not among the sources),
with the fields `main` reads and writes. -/
structure ICGNPOI (F : Type) where
  x : F
  y : F
  initial : DeformationVector2D F
  final : DeformationVector2D F
  iteration : F
  ZNCC : F
  dpNorm : F
deriving DecidableEq, Repr

/-- Modelled from the spec: the constructor `ICGNPOI(x, y)`: the location is stored,
every other field starts at zero. -/
def ICGNPOI.create {F : Type} [Zero F] (x y : F) : ICGNPOI F :=
  { x := x, y := y,
    initial := ⟨0, 0, 0, 0, 0, 0, 0, 0, 0, 0, 0, 0⟩,
    final := ⟨0, 0, 0, 0, 0, 0, 0, 0, 0, 0, 0, 0⟩,
    iteration := 0, ZNCC := 0, dpNorm := 0 }

/-- Modelled from the spec: `ICGNConfiguration` of `opencorr_gpu.h` (not among the
sources), with the four fields `main` assigns. -/
structure ICGNConfiguration (F : Type) where
  subset_rx : Int
  subset_ry : Int
  convergence_criterion : F
  stop_condtion : Int
deriving DecidableEq, Repr

/-- The procedures `main` calls whose bodies are not among the sources.
`feature_affine_compute rx ry ref tar queue` stands for the SIFT matching followed by
`FeatureAffine2D(rx, ry)`, `setImages`, `setKeypointPair`, `prepare` and
`compute(queue)`; it returns the queue as `compute` leaves it.  The two solvers
return their boolean and the GPU queue as they leave it. -/
structure External (F : Type) where
  feature_affine_compute : Int → Int → Image2D F → Image2D F → List (POI2D F) → List (POI2D F)
  ICGN2D1GPU : ICGNImage F → ICGNImage F → List (ICGNPOI F) → ICGNConfiguration F →
    Bool × List (ICGNPOI F)
  ICGN2D2GPU : ICGNImage F → ICGNImage F → List (ICGNPOI F) → ICGNConfiguration F →
    Bool × List (ICGNPOI F)
  fmt : F → List Char
  is_open : String → Bool

/-! ## The driver `main` of `test_2d_dic_gpu_icgn2.cpp` -/

/-- The value of an `int` expression whose exact value is `v`: the 32 bits of `v` in
two's complement.  Inside `[-2 ^ 31, 2 ^ 31)` it is `v`; outside, C++ leaves the
result of a signed operation open and the compilers in use give this one. -/
def wrapInt32 (v : Int) : Int :=
  (v + 2 ^ 31) % 2 ^ 32 - 2 ^ 31

/-- Lines 38-46: the POIs of the grid, row after row.  The products `j * grid_space`
and `i * grid_space` of line 41 are products of `int`. -/
def storePOIs {F : Type} [Zero F] [Add F] [IntCast F] (upper_left_point : Point2D F)
    (poi_number_x poi_number_y grid_space : Int) : List (POI2D F) :=
  (List.range poi_number_y.toNat).foldl (fun poi_queue i =>
    (List.range poi_number_x.toNat).foldl (fun poi_queue j =>
      let offset : Point2D F :=
        { x := ((wrapInt32 ((j : Int) * grid_space) : Int) : F),
          y := ((wrapInt32 ((i : Int) * grid_space) : Int) : F) }
      let current_point := upper_left_point.add offset
      let current_poi := POI2D.create current_point.x current_point.y
      poi_queue ++ [current_poi]) poi_queue) []

/-- Lines 65-73: the two GPU images with their freshly allocated arrays.  Both arrays
are allocated with `ref_img.width * ref_img.height` cells. -/
def allocImages {F : Type} (ref_img tar_img : Image2D F) : ICGNImage F × ICGNImage F :=
  let gpu_ref_img : ICGNImage F :=
    { w := ref_img.width, h := ref_img.height,
      data := List.replicate (ref_img.width * ref_img.height) none }
  let gpu_tar_img : ICGNImage F :=
    { w := tar_img.width, h := tar_img.height,
      data := List.replicate (ref_img.width * ref_img.height) none }
  (gpu_ref_img, gpu_tar_img)

/-- The assignment `data[i] = v` to a `new[]` array; outside the array it is a fault. -/
def writeCell {F : Type} (data : List (Option F)) (i : Nat) (v : F) : Option (List (Option F)) :=
  if i < data.length then some (data.set i (some v)) else none

/-- Lines 78-79: the body of the fill loop at row `r`, column `c`. -/
def fillCell {F : Type} (ref_img tar_img : Image2D F) (r c : Nat)
    (g : ICGNImage F × ICGNImage F) : Option (ICGNImage F × ICGNImage F) := do
  let vr ← ref_img.pixel r c
  let dr ← writeCell g.1.data (r * ref_img.width + c) vr
  let vt ← tar_img.pixel r c
  let dt ← writeCell g.2.data (r * tar_img.width + c) vt
  pure ({ g.1 with data := dr }, { g.2 with data := dt })

/-- Lines 76-81: the fill loop; both loop bounds are those of the reference image. -/
def fillImages {F : Type} (ref_img tar_img : Image2D F)
    (g : ICGNImage F × ICGNImage F) : Option (ICGNImage F × ICGNImage F) :=
  (List.range ref_img.height).foldlM (fun g r =>
    (List.range ref_img.width).foldlM (fun g c => fillCell ref_img tar_img r c g) g) g

/-- Lines 86-92: the GPU POI built from a POI of the queue. -/
def initGpuPOI {F : Type} [Zero F] (iter : POI2D F) : ICGNPOI F :=
  let gpu_POI := ICGNPOI.create iter.x iter.y
  let gpu_POI := { gpu_POI with initial := { gpu_POI.initial with u := iter.deformation.u } }
  let gpu_POI := { gpu_POI with initial := { gpu_POI.initial with ux := iter.deformation.ux } }
  let gpu_POI := { gpu_POI with initial := { gpu_POI.initial with uy := iter.deformation.uy } }
  let gpu_POI := { gpu_POI with initial := { gpu_POI.initial with v := iter.deformation.v } }
  let gpu_POI := { gpu_POI with initial := { gpu_POI.initial with vx := iter.deformation.vx } }
  let gpu_POI := { gpu_POI with initial := { gpu_POI.initial with vy := iter.deformation.vy } }
  gpu_POI

/-- Lines 96-97: the initial guess saved in the POI. -/
def saveInitialGuess {F : Type} (iter : POI2D F) : POI2D F :=
  let iter := { iter with result := { iter.result with u0 := iter.deformation.u } }
  let iter := { iter with result := { iter.result with v0 := iter.deformation.v } }
  iter

/-- Lines 84-98: the loop that builds `gpu_POI_queue` and saves the initial guess.  The
first component is `poi_queue` after the loop, the second is `gpu_POI_queue`. -/
def initGpuQueue {F : Type} [Zero F] (poi_queue : List (POI2D F)) :
    List (POI2D F) × List (ICGNPOI F) :=
  poi_queue.foldl (fun acc iter =>
    (acc.1 ++ [saveInitialGuess iter], acc.2 ++ [initGpuPOI iter])) ([], [])

/-- Lines 143-158: the body of the transfer loop for one POI. -/
def transferOne {F : Type} (poi : POI2D F) (gpu : ICGNPOI F) : POI2D F :=
  let poi := { poi with deformation := { poi.deformation with u := gpu.final.u } }
  let poi := { poi with deformation := { poi.deformation with ux := gpu.final.ux } }
  let poi := { poi with deformation := { poi.deformation with uy := gpu.final.uy } }
  let poi := { poi with deformation := { poi.deformation with uxx := gpu.final.uxx } }
  let poi := { poi with deformation := { poi.deformation with uxy := gpu.final.uxy } }
  let poi := { poi with deformation := { poi.deformation with uyy := gpu.final.uyy } }
  let poi := { poi with deformation := { poi.deformation with v := gpu.final.v } }
  let poi := { poi with deformation := { poi.deformation with vx := gpu.final.vx } }
  let poi := { poi with deformation := { poi.deformation with vy := gpu.final.vy } }
  let poi := { poi with deformation := { poi.deformation with vxx := gpu.final.vxx } }
  let poi := { poi with deformation := { poi.deformation with vxy := gpu.final.vxy } }
  let poi := { poi with deformation := { poi.deformation with vyy := gpu.final.vyy } }
  let poi := { poi with result := { poi.result with zncc := gpu.ZNCC } }
  let poi := { poi with result := { poi.result with iteration := gpu.iteration } }
  let poi := { poi with result := { poi.result with convergence := gpu.dpNorm } }
  poi

/-- Lines 143-158 at index `i`: `poi_queue[i]` and `gpu_POI_queue[i]` are accessed, the
POI is overwritten in place. -/
def transferStep {F : Type} (gpu_POI_queue : List (ICGNPOI F)) (poi_queue : List (POI2D F))
    (i : Nat) : Option (List (POI2D F)) :=
  match poi_queue[i]?, gpu_POI_queue[i]? with
  | some poi, some gpu => some (poi_queue.set i (transferOne poi gpu))
  | _, _ => none

/-- Lines 142-159: the transfer loop, `i` running over the indices of `poi_queue`. -/
def transferResults {F : Type} (poi_queue : List (POI2D F)) (gpu_POI_queue : List (ICGNPOI F)) :
    Option (List (POI2D F)) :=
  (List.range poi_queue.length).foldlM (transferStep gpu_POI_queue) poi_queue

/-! ## `IO2D` of `oc_io.cpp` -/

/-- The ways a run of the embedded code stops without a result. -/
inductive Fault where
  | stof_throws
  | out_of_range
  | out_of_bounds
  | no_fuel
deriving DecidableEq, Repr

/-- The search of `std::string::find` on the text that starts at index `i`. -/
def findAux (delimiter : List Char) : List Char → Nat → Option Nat
  | [], i => if delimiter.isPrefixOf [] then some i else none
  | c :: t, i => if delimiter.isPrefixOf (c :: t) then some i else findAux delimiter t (i + 1)

/-- The call `data_line.find(delimiter, pos)` of the standard library: the least
index `≥ pos` at which `delimiter` occurs; `none` is `string::npos`. -/
def find (data_line delimiter : List Char) (pos : Nat) : Option Nat :=
  if pos ≤ data_line.length then findAux delimiter (data_line.drop pos) pos else none

/-- The call `data_line.substr(pos, n)` of the standard library; it throws
`std::out_of_range` when `pos` is beyond the end. -/
def substr (data_line : List Char) (pos n : Nat) : Except Fault (List Char) :=
  if pos ≤ data_line.length then .ok ((data_line.drop pos).take n) else .error .out_of_range

/-- Read `key_buffer[i]`; outside the vector it is a fault. -/
def readKey {F : Type} (key_buffer : List F) (i : Nat) : Except Fault F :=
  match key_buffer[i]? with
  | some v => .ok v
  | none => .error .out_of_bounds

/-- Lines 90-91: push the parsed string `variable` (here `token`) when it is not empty. -/
def pushVariable {F : Type} (stof : List Char → Option F) (token : List Char)
    (key_buffer : List F) : Except Fault (List F) :=
  if token ≠ [] then
    match stof token with
    | some v => .ok (key_buffer ++ [v])
    | none => .error .stof_throws
  else .ok key_buffer

/-- Lines 84-94 (and 332-342): the do-while loop that splits `data_line`.  The first
argument bounds the number of passes; `position1` and `key_buffer` are the loop
variables. -/
def tokenLoop {F : Type} (stof : List Char → Option F) (delimiter data_line : List Char) :
    Nat → Nat → List F → Except Fault (List F)
  | 0, _, _ => .error .no_fuel
  | fuel + 1, position1, key_buffer => do
    let position2 := match find data_line delimiter position1 with
      | some p => p
      | none => data_line.length
    let token ← substr data_line position1 (position2 - position1)
    let key_buffer ← pushVariable stof token key_buffer
    let position1 := position2 + delimiter.length
    if position2 < data_line.length ∧ position1 < data_line.length then
      tokenLoop stof delimiter data_line fuel position1 key_buffer
    else pure key_buffer

/-- The value of `sizeof(result.r) / sizeof(result.r[0])`. -/
def Result2D.array_size : Nat := 6

/-- The value of `sizeof(strain.e) / sizeof(strain.e[0])`. -/
def StrainVector2D.array_size : Nat := 3

/-- Lines 96-115: the POI built from the `key_buffer` of one line. -/
def poiOfKeys {F : Type} [Zero F] (key_buffer : List F) : Except Fault (POI2D F) := do
  let x ← readKey key_buffer 0
  let y ← readKey key_buffer 1
  let current_POI : POI2D F := POI2D.create x y
  let u ← readKey key_buffer 2
  let current_POI := { current_POI with deformation := { current_POI.deformation with u := u } }
  let v ← readKey key_buffer 3
  let current_POI := { current_POI with deformation := { current_POI.deformation with v := v } }
  let current_index := 4
  let array_size := Result2D.array_size
  let current_POI ← (List.range array_size).foldlM (fun (poi : POI2D F) i => do
    let k ← readKey key_buffer (current_index + i)
    match poi.result.setR i k with
    | some r => pure { poi with result := r }
    | none => throw Fault.out_of_bounds) current_POI
  let current_index := current_index + array_size
  let array_size := StrainVector2D.array_size
  let current_POI ← (List.range array_size).foldlM (fun (poi : POI2D F) i => do
    let k ← readKey key_buffer (current_index + i)
    match poi.strain.setE i k with
    | some e => pure { poi with strain := e }
    | none => throw Fault.out_of_bounds) current_POI
  pure current_POI

/-- The lines that successive calls of `std::getline` deliver from a stream holding
the given characters: each call takes the characters up to the next line feed and
drops the line feed; a call fails once no character is left. -/
def getlines : List Char → List (List Char)
  | [] => []
  | c :: t =>
    if c = '\n' then [] :: getlines t
    else
      match getlines t with
      | [] => [[c]]
      | l :: ls => (c :: l) :: ls

/-- Lines 80-115: the body of the reading loop of `loadTable2D` for one line. -/
def loadTableLine {F : Type} [Zero F] (stof : List Char → Option F) (fuel : Nat)
    (delimiter data_line : List Char) : Except Fault (POI2D F) := do
  let key_buffer ← tokenLoop stof delimiter data_line fuel 0 []
  poiOfKeys key_buffer

/-- The function `IO2D::loadTable2D`, on the characters of the file; `fuel` bounds the
passes of the splitting loop on each line.  The first `getline` takes the header, the
loop takes the other lines. -/
def loadTable2D {F : Type} [Zero F] (stof : List Char → Option F) (fuel : Nat)
    (delimiter file_in : List Char) : Except Fault (List (POI2D F)) :=
  ((getlines file_in).drop 1).foldlM (fun poi_queue data_line => do
    let current_POI ← loadTableLine stof fuel delimiter data_line
    pure (poi_queue ++ [current_POI])) []

/-- The value `string::npos` of a 64-bit `size_t`. -/
def npos : Nat := 2 ^ 64 - 1

/-- Lines 135-158: the body of the reading loop of `loadPOI2D` for one line.  The
positions are `size_t` values: sums and differences are taken modulo `2 ^ 64`. -/
def loadPOILine {F : Type} (stof : List Char → Option F)
    (delimiter data_line : List Char) : Except Fault (Point2D F) := do
  let position1 := 0
  let key_buffer : List F := []
  let position2 := match find data_line delimiter position1 with
    | some p => p
    | none => npos
  let token ← substr data_line position1 ((position2 + 2 ^ 64 - position1) % 2 ^ 64)
  let key_buffer ← pushVariable stof token key_buffer
  let position1 := (position2 + delimiter.length) % 2 ^ 64
  let position2 := data_line.length
  let token ← substr data_line position1 ((position2 + 2 ^ 64 - position1) % 2 ^ 64)
  let key_buffer ← pushVariable stof token key_buffer
  let x ← readKey key_buffer 0
  let y ← readKey key_buffer 1
  pure { x := x, y := y }

/-- The function `IO2D::loadPOI2D`, on the characters of the file. -/
def loadPOI2D {F : Type} (stof : List Char → Option F)
    (delimiter file_in : List Char) : Except Fault (List (Point2D F)) :=
  ((getlines file_in).drop 1).foldlM (fun poi_queue data_line => do
    let current_poi ← loadPOILine stof delimiter data_line
    pure (poi_queue ++ [current_poi])) []

/-- The function `IO2D::saveTable2D`: the characters sent to `file_out`. -/
def saveTable2D {F : Type} (fmt : F → List Char) (delimiter : List Char) (is_open : Bool)
    (poi_queue : List (POI2D F)) : List Char :=
  let file_out : List Char := []
  if is_open then
    let file_out := file_out ++ "x".toList ++ delimiter
    let file_out := file_out ++ "y".toList ++ delimiter
    let file_out := file_out ++ "u".toList ++ delimiter
    let file_out := file_out ++ "v".toList ++ delimiter
    let file_out := file_out ++ "u0".toList ++ delimiter
    let file_out := file_out ++ "v0".toList ++ delimiter
    let file_out := file_out ++ "ZNCC".toList ++ delimiter
    let file_out := file_out ++ "iteration".toList ++ delimiter
    let file_out := file_out ++ "convergence".toList ++ delimiter
    let file_out := file_out ++ "feature".toList ++ delimiter
    let file_out := file_out ++ "exx".toList ++ delimiter
    let file_out := file_out ++ "eyy".toList ++ delimiter
    let file_out := file_out ++ "exy".toList ++ delimiter
    let file_out := file_out ++ ['\n']
    poi_queue.foldl (fun file_out iter =>
      let file_out := file_out ++ fmt iter.x ++ delimiter
      let file_out := file_out ++ fmt iter.y ++ delimiter
      let file_out := file_out ++ fmt iter.deformation.u ++ delimiter
      let file_out := file_out ++ fmt iter.deformation.v ++ delimiter
      let file_out := iter.result.r.foldl (fun file_out ri => file_out ++ fmt ri ++ delimiter) file_out
      let file_out := iter.strain.e.foldl (fun file_out ei => file_out ++ fmt ei ++ delimiter) file_out
      file_out ++ ['\n']) file_out
  else file_out

/-- The function `IO2D::saveDeformationTable2D`: the characters sent to `file_out`. -/
def saveDeformationTable2D {F : Type} (fmt : F → List Char) (delimiter : List Char)
    (is_open : Bool) (poi_queue : List (POI2D F)) : List Char :=
  let file_out : List Char := []
  if is_open then
    let file_out := file_out ++ "x".toList ++ delimiter
    let file_out := file_out ++ "y".toList ++ delimiter
    let file_out := file_out ++ "u".toList ++ delimiter
    let file_out := file_out ++ "ux".toList ++ delimiter
    let file_out := file_out ++ "uy".toList ++ delimiter
    let file_out := file_out ++ "uxx".toList ++ delimiter
    let file_out := file_out ++ "uxy".toList ++ delimiter
    let file_out := file_out ++ "uyy".toList ++ delimiter
    let file_out := file_out ++ "v".toList ++ delimiter
    let file_out := file_out ++ "vx".toList ++ delimiter
    let file_out := file_out ++ "vy".toList ++ delimiter
    let file_out := file_out ++ "vxx".toList ++ delimiter
    let file_out := file_out ++ "vxy".toList ++ delimiter
    let file_out := file_out ++ "vyy".toList ++ delimiter
    let file_out := file_out ++ ['\n']
    poi_queue.foldl (fun file_out iter =>
      let file_out := file_out ++ fmt iter.x ++ delimiter
      let file_out := file_out ++ fmt iter.y ++ delimiter
      let file_out := iter.deformation.p.foldl (fun file_out pi => file_out ++ fmt pi ++ delimiter) file_out
      file_out ++ ['\n']) file_out
  else file_out

/-! ## The function `main`, assembled -/

/-- What `main` does that is visible from outside: the calls of the procedures whose
bodies are not among the sources, the messages on `cerr`, the files written. -/
inductive Event (F : Type) where
  | estimate (subset_radius_x subset_radius_y : Int) (poi_queue : List (POI2D F))
  | solve (shape_order : Int) (gpu_ref_img gpu_tar_img : ICGNImage F)
      (gpu_POI_queue : List (ICGNPOI F)) (icgn_conf : ICGNConfiguration F)
  | cerr (msg : String)
  | file (file_path : String) (content : List Char)
deriving DecidableEq, Repr

/-- Whether an event is the call of a solver. -/
def Event.isSolve {F : Type} : Event F → Bool
  | .solve _ _ _ _ _ => true
  | _ => false

/-- Whether an event is a written file. -/
def Event.isFile {F : Type} : Event F → Bool
  | .file _ _ => true
  | _ => false

/-- The end of a run of `main`: the events in order, the value returned (`none` when
the run stopped on an access outside an array) and the POI queue at that point. -/
structure Outcome (F : Type) where
  log : List (Event F)
  ret : Option Int
  poi_queue : List (POI2D F)

/-- Lines 120-132: the two `if` statements that run a solver.  The result is the log,
the GPU queue, and whether `main` goes on (`false`: it returns `-1`). -/
def runSolver {F : Type} (ext : External F) (shape_order : Int)
    (gpu_ref_img gpu_tar_img : ICGNImage F) (gpu_POI_queue : List (ICGNPOI F))
    (icgn_conf : ICGNConfiguration F) (log : List (Event F)) :
    List (Event F) × List (ICGNPOI F) × Bool :=
  let first : List (Event F) × List (ICGNPOI F) × Bool :=
    if shape_order = 1 then
      let res := ext.ICGN2D1GPU gpu_ref_img gpu_tar_img gpu_POI_queue icgn_conf
      let log := log ++ [Event.solve 1 gpu_ref_img gpu_tar_img gpu_POI_queue icgn_conf]
      if !res.1 then (log ++ [Event.cerr "ICGNbyGPU return false!"], res.2, false)
      else (log, res.2, true)
    else (log, gpu_POI_queue, true)
  if first.2.2 then
    if shape_order = 2 then
      let res := ext.ICGN2D2GPU gpu_ref_img gpu_tar_img first.2.1 icgn_conf
      let log := first.1 ++ [Event.solve 2 gpu_ref_img gpu_tar_img first.2.1 icgn_conf]
      if !res.1 then (log ++ [Event.cerr "ICGNbyGPU return false!"], res.2, false)
      else (log, res.2, true)
    else first
  else first

/-- Lines 161-176: the two tables written at the end, with `","` as delimiter. -/
def saveResults {F : Type} (ext : External F) (tar_image_path : String)
    (poi_queue : List (POI2D F)) : List (Event F) :=
  let delimiter := ",".toList
  let file_path := tar_image_path ++ "_gpu_icgn2_table.csv"
  let table := Event.file file_path (saveTable2D ext.fmt delimiter (ext.is_open file_path) poi_queue)
  let file_path := tar_image_path ++ "_gpu_icgn2_deformation.csv"
  let deformation :=
    Event.file file_path (saveDeformationTable2D ext.fmt delimiter (ext.is_open file_path) poi_queue)
  [table, deformation]

/-- The values that `main` fixes in its first lines: the two images, the path that
names the output files, the DIC parameters, the grid of POIs and `shape_order`. -/
structure Settings (F : Type) where
  ref_img : Image2D F
  tar_img : Image2D F
  tar_image_path : String
  subset_radius_x : Int
  subset_radius_y : Int
  max_iteration : Int
  max_dp_norm : F
  upper_left_point : Point2D F
  poi_number_x : Int
  poi_number_y : Int
  grid_space : Int
  shape_order : Int

/-- Lines 38-46: `poi_queue` when the estimator is called. -/
def createdQueue {F : Type} [Zero F] [Add F] [IntCast F] (s : Settings F) : List (POI2D F) :=
  storePOIs s.upper_left_point s.poi_number_x s.poi_number_y s.grid_space

/-- Lines 51-62: `poi_queue` as `feature_affine->compute(poi_queue)` leaves it. -/
def estimatedQueue {F : Type} [Zero F] [Add F] [IntCast F] (ext : External F) (s : Settings F) :
    List (POI2D F) :=
  ext.feature_affine_compute s.subset_radius_x s.subset_radius_y s.ref_img s.tar_img
    (createdQueue s)

/-- Lines 104-108: the configuration handed to the solver. -/
def icgnConf {F : Type} (s : Settings F) : ICGNConfiguration F :=
  { subset_rx := s.subset_radius_x, subset_ry := s.subset_radius_y,
    convergence_criterion := s.max_dp_norm, stop_condtion := s.max_iteration }

/-- Lines 120-132 inside `main`: the solver step on the GPU queue built from the
estimated POIs, with the log `main` has at that point. -/
def solverRun {F : Type} [Zero F] [Add F] [IntCast F] (ext : External F) (s : Settings F)
    (gpu_img : ICGNImage F × ICGNImage F) : List (Event F) × List (ICGNPOI F) × Bool :=
  runSolver ext s.shape_order gpu_img.1 gpu_img.2 (initGpuQueue (estimatedQueue ext s)).2
    (icgnConf s) [Event.estimate s.subset_radius_x s.subset_radius_y (createdQueue s)]

/-- The function `main` of `test_2d_dic_gpu_icgn2.cpp`, on the values it fixes in its
first lines; timing and console output are left out. -/
def main {F : Type} [Zero F] [Add F] [IntCast F] (ext : External F) (s : Settings F) :
    Outcome F :=
  let poi_queue := createdQueue s
  let log := [Event.estimate s.subset_radius_x s.subset_radius_y poi_queue]
  let poi_queue := estimatedQueue ext s
  match fillImages s.ref_img s.tar_img (allocImages s.ref_img s.tar_img) with
  | none => { log := log, ret := none, poi_queue := poi_queue }
  | some gpu_img =>
    let poi_queue := (initGpuQueue poi_queue).1
    let solved := solverRun ext s gpu_img
    if solved.2.2 then
      match transferResults poi_queue solved.2.1 with
      | none => { log := solved.1, ret := none, poi_queue := poi_queue }
      | some poi_queue =>
        { log := solved.1 ++ saveResults ext s.tar_image_path poi_queue, ret := some 0,
          poi_queue := poi_queue }
    else { log := solved.1, ret := some (-1), poi_queue := poi_queue }

/-! ## Behaviour of the absent procedures, and sample inputs -/

/-- A stand-in for the absent procedures, on integer values: the estimator stores a
translation, first-order gradients and a feature count; the order-1 solver returns
the first-order part of the initial guess, the order-2 solver the whole of it. -/
def sampleExternal : External Int where
  feature_affine_compute := fun _ _ _ _ poi_queue =>
    poi_queue.map (fun poi =>
      { poi with
        deformation := { poi.deformation with u := 2, ux := 1, uy := 0, v := 3, vx := 0, vy := 1 },
        result := { poi.result with feature := 5 } })
  ICGN2D1GPU := fun _ _ gpu_POI_queue _ =>
    (true, gpu_POI_queue.map (fun gpu =>
      { gpu with
        final := { gpu.final with u := gpu.initial.u, ux := gpu.initial.ux, uy := gpu.initial.uy,
                                  v := gpu.initial.v, vx := gpu.initial.vx, vy := gpu.initial.vy },
        iteration := 4, ZNCC := 1, dpNorm := 0 }))
  ICGN2D2GPU := fun _ _ gpu_POI_queue _ =>
    (true, gpu_POI_queue.map (fun gpu =>
      { gpu with final := gpu.initial, iteration := 4, ZNCC := 1, dpNorm := 0 }))
  fmt := fun v => (toString v).toList
  is_open := fun _ => true

/-- The stand-in of `sampleExternal` with solvers that return `false`. -/
def failingExternal : External Int :=
  { sampleExternal with
    ICGN2D1GPU := fun _ _ gpu_POI_queue _ => (false, gpu_POI_queue),
    ICGN2D2GPU := fun _ _ gpu_POI_queue _ => (false, gpu_POI_queue) }

/-- A small image: `width` by `height`, the intensity at `(r, c)` being `10 * r + c`. -/
def sampleImage (width height : Nat) : Image2D Int :=
  { width := width, height := height, eg_mat := fun r c => 10 * (r : Int) + (c : Int) }

/-- Settings on two 3-by-2 images with a grid of 2 by 1 POIs, for the given subset
radius along x and the given `shape_order`. -/
def sampleSettings (subset_radius_x shape_order : Int) : Settings Int :=
  { ref_img := sampleImage 3 2, tar_img := sampleImage 3 2, tar_image_path := "tar.bmp",
    subset_radius_x := subset_radius_x, subset_radius_y := 16, max_iteration := 10,
    max_dp_norm := 0, upper_left_point := { x := 30, y := 30 },
    poi_number_x := 2, poi_number_y := 1, grid_space := 1, shape_order := shape_order }

/-- A line of a table as the spec describes it: every field followed by the
delimiter. -/
def tableLine (delimiter : List Char) (fields : List (List Char)) : List Char :=
  (fields.map (fun field => field ++ delimiter)).flatten

/-- A table as the spec describes it: its lines in order, each ended by a line feed. -/
def tableText (delimiter : List Char) (rows : List (List (List Char))) : List Char :=
  (rows.map (fun fields => tableLine delimiter fields ++ ['\n'])).flatten

/-- The thirteen column titles of the table of `saveTable2D`. -/
def table2DHeader : List (List Char) :=
  ["x".toList, "y".toList, "u".toList, "v".toList, "u0".toList, "v0".toList, "ZNCC".toList,
    "iteration".toList, "convergence".toList, "feature".toList, "exx".toList, "eyy".toList,
    "exy".toList]

/-- The values of a POI that `saveTable2D` prints, in order: `x`, `y`,
`deformation.u`, `deformation.v`, the elements of `result.r`, the elements of
`strain.e`. -/
def POI2D.saved {F : Type} (poi : POI2D F) : List F :=
  [poi.x, poi.y, poi.deformation.u, poi.deformation.v] ++ poi.result.r ++ poi.strain.e

/-- The fields of the line of a POI in the table of `saveTable2D`. -/
def table2DRow {F : Type} (fmt : F → List Char) (poi : POI2D F) : List (List Char) :=
  poi.saved.map fmt

/-- The fourteen column titles of the table of `saveDeformationTable2D`. -/
def deformationHeader : List (List Char) :=
  ["x".toList, "y".toList, "u".toList, "ux".toList, "uy".toList, "uxx".toList, "uxy".toList,
    "uyy".toList, "v".toList, "vx".toList, "vy".toList, "vxx".toList, "vxy".toList,
    "vyy".toList]

/-- The fields of the line of a POI in the table of `saveDeformationTable2D`: `x`,
`y`, then the elements of `deformation.p`. -/
def deformationRow {F : Type} (fmt : F → List Char) (poi : POI2D F) : List (List Char) :=
  ([poi.x, poi.y] ++ poi.deformation.p).map fmt

/-- The POI that `loadTable2D` builds from the line of `poi`, every printed value `v`
coming back as `rt v`: the location, `u`, `v`, the metrics and the strain; the other
ten deformation parameters are those of a fresh POI. -/
def reloaded {F : Type} [Zero F] (rt : F → F) (poi : POI2D F) : POI2D F :=
  { x := rt poi.x, y := rt poi.y,
    deformation :=
      { (POI2D.create (rt poi.x) (rt poi.y)).deformation with
        u := rt poi.deformation.u, v := rt poi.deformation.v },
    result :=
      { u0 := rt poi.result.u0, v0 := rt poi.result.v0, zncc := rt poi.result.zncc,
        iteration := rt poi.result.iteration, convergence := rt poi.result.convergence,
        feature := rt poi.result.feature },
    strain := { exx := rt poi.strain.exx, eyy := rt poi.strain.eyy, exy := rt poi.strain.exy } }

/-- The pushes of lines 90-91 for the given fields, in order. -/
def pushAll {F : Type} (stof : List Char → Option F) (fields : List (List Char))
    (key_buffer : List F) : Except Fault (List F) :=
  fields.foldlM (fun key_buffer field => pushVariable stof field key_buffer) key_buffer

/-- The text before the first occurrence of the delimiter and the text after it;
`none` when the delimiter does not occur. -/
def breakOn (delimiter : List Char) : List Char → Option (List Char × List Char)
  | [] => if delimiter.isPrefixOf [] then some ([], []) else none
  | c :: t =>
    if delimiter.isPrefixOf (c :: t) then some ([], (c :: t).drop delimiter.length)
    else (breakOn delimiter t).map (fun ab => (c :: ab.1, ab.2))

/-- The delimiter-separated fields of a text, cut at most `fuel` times. -/
def splitAux (delimiter : List Char) : Nat → List Char → List (List Char)
  | 0, s => [s]
  | fuel + 1, s =>
    match breakOn delimiter s with
    | none => [s]
    | some ab => ab.1 :: splitAux delimiter fuel ab.2

/-- The delimiter-separated fields of a line: the line is cut at the first
occurrence of the delimiter, then the rest is cut in the same way. -/
def splitFields (delimiter data_line : List Char) : List (List Char) :=
  splitAux delimiter data_line.length data_line

/-- The non-empty delimiter-separated fields of a line. -/
def nonEmptyFields (delimiter data_line : List Char) : List (List Char) :=
  (splitFields delimiter data_line).filter (fun field => field ≠ [])

/-- The decimal digits of a number, at least `width` of them. -/
def digitsPadded (width n : Nat) : List Char :=
  List.replicate (width - (Nat.toDigits 10 n).length) '0' ++ Nat.toDigits 10 n

/-- A stand-in for printing with `std::fixed` and `std::setprecision(8)`: the value
is a whole number of units of `10⁻⁸`, printed with eight decimals. -/
def fmtFixed (v : Int) : List Char :=
  (if v < 0 then ['-'] else []) ++ digitsPadded 1 (v.natAbs / 10 ^ 8) ++ ['.'] ++
    digitsPadded 8 (v.natAbs % 10 ^ 8)

/-- The number written by a list of decimal digits. -/
def digitsValue (digits : List Char) : Nat :=
  digits.foldl (fun n c => 10 * n + (c.toNat - 48)) 0

/-- A stand-in for `std::stof` on the texts of `fmtFixed`: an optional minus sign,
digits, an optional point and digits; what follows is ignored; the result is in units
of `10⁻⁸` (decimals after the eighth are dropped).  Without any digit the
conversion fails. -/
def stofFixed (s : List Char) : Option Int :=
  let negative := s.head? = some '-'
  let s := if negative then s.drop 1 else s
  let whole := s.takeWhile Char.isDigit
  let s := s.dropWhile Char.isDigit
  let decimals := if s.head? = some '.' then (s.drop 1).takeWhile Char.isDigit else []
  if whole = [] ∧ decimals = [] then none
  else
    let units : Nat := digitsValue whole * 10 ^ 8 +
      digitsValue ((decimals ++ List.replicate 8 '0').take 8)
    some (if negative then -(units : Int) else (units : Int))

/-- A POI with thirteen different saved values, in units of `10⁻⁸`. -/
def samplePOI : POI2D Int :=
  { x := 3000000000, y := 3100000000,
    deformation := ⟨150000000, 1, 2, 3, 4, 5, -25000000, 6, 7, 8, 9, 10⟩,
    result := ⟨140000000, -20000000, 99000000, 400000000, 12345, 1200000000⟩,
    strain := ⟨100, -200, 300⟩ }

/-- A POI at `x = 0.00390625`, every other value zero. -/
def fivePOI : POI2D Int :=
  { x := 390625, y := 0,
    deformation := ⟨0, 0, 0, 0, 0, 0, 0, 0, 0, 0, 0, 0⟩,
    result := ⟨0, 0, 0, 0, 0, 0⟩,
    strain := ⟨0, 0, 0⟩ }

/-- Settings with a grid of 2 by 3 POIs, 5 pixels apart, for `shape_order = 2`. -/
def gridSettings : Settings Int :=
  { sampleSettings 16 2 with poi_number_x := 2, poi_number_y := 3, grid_space := 5 }

/-! ## The passes of the splitting loop -/

/-- Lines 85-87: the value of `position2` in the pass that starts at `position1`. -/
def position2Of (delimiter data_line : List Char) (position1 : Nat) : Nat :=
  match find data_line delimiter position1 with
  | some p => p
  | none => data_line.length

/-- Line 93: the value of `position1` at the end of the pass that starts at
`position1`. -/
def nextPosition1 (delimiter data_line : List Char) (position1 : Nat) : Nat :=
  position2Of delimiter data_line position1 + delimiter.length

/-- The values of `position1` at the start of the passes of the do-while loop of lines
84-94, from a pass that starts at `position1`, for at most `fuel` passes and as long
as `stof` does not throw. -/
def passStarts (delimiter data_line : List Char) : Nat → Nat → List Nat
  | 0, _ => []
  | fuel + 1, position1 =>
    position1 ::
      (if position2Of delimiter data_line position1 < data_line.length ∧
          nextPosition1 delimiter data_line position1 < data_line.length then
        passStarts delimiter data_line fuel (nextPosition1 delimiter data_line position1)
      else [])

/-! ## `IO2D::saveMap2D` -/

/-- The matrix type `Eigen::MatrixXf` as `saveMap2D` uses it: the numbers of rows and
columns and the coefficient at `(row, column)`. -/
structure MatrixXf (F : Type) where
  rows : Nat
  cols : Nat
  coeff : Nat → Nat → F

/-- The matrix `Eigen::MatrixXf::Zero(rows, cols)`. -/
def MatrixXf.Zero {F : Type} [Zero F] (rows cols : Nat) : MatrixXf F :=
  { rows := rows, cols := cols, coeff := fun _ _ => 0 }

/-- The assignment `output_map(r, c) = v`; outside the matrix it is a fault. -/
def MatrixXf.assign {F : Type} (output_map : MatrixXf F) (r c : Int) (v : F) :
    Except Fault (MatrixXf F) :=
  if 0 ≤ r ∧ r < output_map.rows ∧ 0 ≤ c ∧ c < output_map.cols then
    .ok { output_map with
          coeff := fun r' c' =>
            if r' = r.toNat ∧ c' = c.toNat then v else output_map.coeff r' c' }
  else .error .out_of_bounds

/-- The loop of one `case` of the `switch` of `saveMap2D` (lines 252-254 and the like):
for every POI of the queue in order, the value of the field of that case is assigned
at row `(int)y`, column `(int)x`.  `toInt` is the conversion `(int)` of a `float`. -/
def fillMap {F : Type} (toInt : F → Int) (field : POI2D F → F) (poi_queue : List (POI2D F))
    (output_map : MatrixXf F) : Except Fault (MatrixXf F) :=
  poi_queue.foldlM (fun output_map poi =>
    output_map.assign (toInt poi.y) (toInt poi.x) (field poi)) output_map

/-- Lines 250-298: the `switch` on `variable` (here `code`); `none` is the `return` of
the `default` label. -/
def switchMap {F : Type} (toInt : F → Int) (poi_queue : List (POI2D F)) (code : Char)
    (output_map : MatrixXf F) : Except Fault (Option (MatrixXf F)) :=
  if code = 'u' then
    (fillMap toInt (fun poi => poi.deformation.u) poi_queue output_map).map some
  else if code = 'v' then
    (fillMap toInt (fun poi => poi.deformation.v) poi_queue output_map).map some
  else if code = 'c' then
    (fillMap toInt (fun poi => poi.result.zncc) poi_queue output_map).map some
  else if code = 'd' then
    (fillMap toInt (fun poi => poi.result.convergence) poi_queue output_map).map some
  else if code = 'i' then
    (fillMap toInt (fun poi => poi.result.iteration) poi_queue output_map).map some
  else if code = 'f' then
    (fillMap toInt (fun poi => poi.result.feature) poi_queue output_map).map some
  else if code = 'x' then
    (fillMap toInt (fun poi => poi.strain.exx) poi_queue output_map).map some
  else if code = 'y' then
    (fillMap toInt (fun poi => poi.strain.eyy) poi_queue output_map).map some
  else if code = 'r' then
    (fillMap toInt (fun poi => poi.strain.exy) poi_queue output_map).map some
  else .ok none

/-- Lines 300-311: the characters sent to `file_out` for the map. -/
def writeMap {F : Type} (fmt : F → List Char) (delimiter : List Char) (is_open : Bool)
    (width height : Nat) (output_map : MatrixXf F) : List Char :=
  let file_out : List Char := []
  if is_open then
    (List.range height).foldl (fun file_out r =>
      let file_out := (List.range width).foldl (fun file_out c =>
        file_out ++ fmt (output_map.coeff r c) ++ delimiter) file_out
      file_out ++ ['\n']) file_out
  else file_out

/-- The function `IO2D::saveMap2D`: the characters sent to `file_out`, `none` when the
function returns before it opens the file.  `width` and `height` are the values of
`getWidth()` and `getHeight()`. -/
def saveMap2D {F : Type} [Zero F] (fmt : F → List Char) (toInt : F → Int)
    (delimiter : List Char) (is_open : Bool) (width height : Nat)
    (poi_queue : List (POI2D F)) (code : Char) : Except Fault (Option (List Char)) := do
  let output_map : MatrixXf F := MatrixXf.Zero height width
  match ← switchMap toInt poi_queue code output_map with
  | none => pure none
  | some output_map => pure (some (writeMap fmt delimiter is_open width height output_map))

/-- The field that the claim on `saveMap2D` gives for a variable code: `u, v, c, d, i,
f, x, y, r` stand for `u, v, zncc, convergence, iteration, feature, exx, eyy, exy`. -/
def mapField {F : Type} (code : Char) : Option (POI2D F → F) :=
  [('u', fun (poi : POI2D F) => poi.deformation.u), ('v', fun poi => poi.deformation.v),
    ('c', fun poi => poi.result.zncc), ('d', fun poi => poi.result.convergence),
    ('i', fun poi => poi.result.iteration), ('f', fun poi => poi.result.feature),
    ('x', fun poi => poi.strain.exx), ('y', fun poi => poi.strain.eyy),
    ('r', fun poi => poi.strain.exy)].lookup code

/-- The value that the claim on `saveMap2D` gives for row `r`, column `c`: the field of
the last POI of the queue with `(int)y = r` and `(int)x = c`, and `0` without such a
POI. -/
def lastAt {F : Type} [Zero F] (toInt : F → Int) (field : POI2D F → F)
    (poi_queue : List (POI2D F)) (r c : Nat) : F :=
  match poi_queue.reverse.find?
      (fun poi => decide (toInt poi.y = (r : Int) ∧ toInt poi.x = (c : Int))) with
  | some poi => field poi
  | none => 0

/-- A stand-in for the conversion `(int)` on values in units of `10⁻⁸`: the decimals
are cut off. -/
def truncFixed (v : Int) : Int :=
  if v < 0 then -((v.natAbs / 10 ^ 8 : Nat) : Int) else ((v.natAbs / 10 ^ 8 : Nat) : Int)

/-- A POI at `(x, y)`, in units of `10⁻⁸`, with `deformation.u = u` and every other
value zero. -/
def cellPOI (x y u : Int) : POI2D Int :=
  { x := x, y := y,
    deformation := ⟨u, 0, 0, 0, 0, 0, 0, 0, 0, 0, 0, 0⟩,
    result := ⟨0, 0, 0, 0, 0, 0⟩,
    strain := ⟨0, 0, 0⟩ }

/-- Three POIs on a map 3 wide and 2 high: two in the cell of row 0, column 1, one in
the cell of row 1, column 2. -/
def mapQueue : List (POI2D Int) :=
  [cellPOI 150000000 0 700000000, cellPOI 199000000 50000000 800000000,
    cellPOI 200000000 100000000 900000000]

/-! ## Lemmas on the loops of `main` -/

theorem initGpuQueue_foldl {F : Type} [Zero F] (poi_queue : List (POI2D F))
    (acc : List (POI2D F) × List (ICGNPOI F)) :
    poi_queue.foldl (fun acc iter =>
      (acc.1 ++ [saveInitialGuess iter], acc.2 ++ [initGpuPOI iter])) acc
      = (acc.1 ++ poi_queue.map saveInitialGuess, acc.2 ++ poi_queue.map initGpuPOI) := by
  induction poi_queue generalizing acc with
  | nil => simp
  | cons a t ih => simp [ih]

/-- The loop of lines 84-98 maps every POI to its GPU POI and saves its initial guess. -/
theorem initGpuQueue_eq {F : Type} [Zero F] (poi_queue : List (POI2D F)) :
    initGpuQueue poi_queue = (poi_queue.map saveInitialGuess, poi_queue.map initGpuPOI) := by
  unfold initGpuQueue
  rw [initGpuQueue_foldl]
  simp

theorem transferResults_prefix {F : Type} (poi_queue : List (POI2D F))
    (gpu_POI_queue : List (ICGNPOI F)) (hlen : poi_queue.length ≤ gpu_POI_queue.length)
    (n : Nat) (hn : n ≤ poi_queue.length) :
    ∃ q, (List.range n).foldlM (transferStep gpu_POI_queue) poi_queue = some q ∧
      q.length = poi_queue.length ∧
      ∀ j, q[j]? = if j < n then (List.zipWith transferOne poi_queue gpu_POI_queue)[j]?
        else poi_queue[j]? := by
  induction n with
  | zero => exact ⟨poi_queue, by simp⟩
  | succ n ih =>
    obtain ⟨q, hq, hql, hqj⟩ := ih (by omega)
    have hn1 : n < poi_queue.length := by omega
    have hn2 : n < gpu_POI_queue.length := by omega
    have hqn : q[n]? = some poi_queue[n] := by
      rw [hqj n]; simp [hn1]
    refine ⟨q.set n (transferOne poi_queue[n] gpu_POI_queue[n]), ?_, by simpa using hql, ?_⟩
    · rw [List.range_succ, List.foldlM_append, hq]
      simp [transferStep, hqn, List.getElem?_eq_getElem hn2]
    · intro j
      rw [List.getElem?_set]
      by_cases hjn : n = j
      · subst hjn
        simp [hql, hn1, List.getElem?_zipWith, List.getElem?_eq_getElem hn2]
      · rw [if_neg hjn, hqj j]
        by_cases hj : j < n
        · rw [if_pos hj, if_pos (by omega)]
        · rw [if_neg hj, if_neg (by omega)]

/-- The transfer loop of lines 142-159 runs to its end when `gpu_POI_queue` is at least
as long as `poi_queue`, and then pairs the two queues index by index. -/
theorem transferResults_eq {F : Type} (poi_queue : List (POI2D F))
    (gpu_POI_queue : List (ICGNPOI F)) (hlen : poi_queue.length ≤ gpu_POI_queue.length) :
    transferResults poi_queue gpu_POI_queue
      = some (List.zipWith transferOne poi_queue gpu_POI_queue) := by
  obtain ⟨q, hq, hql, hqj⟩ :=
    transferResults_prefix poi_queue gpu_POI_queue hlen poi_queue.length (le_refl _)
  unfold transferResults
  rw [hq]
  congr 1
  apply List.ext_getElem?
  intro j
  rw [hqj j]
  by_cases hj : j < poi_queue.length
  · simp [hj]
  · rw [if_neg hj]
    rw [List.getElem?_eq_none (by omega), List.getElem?_eq_none]
    simp; omega

theorem foldlM_none_of_mem {α β : Type} (f : β → α → Option β) (a : α)
    (hf : ∀ b, f b a = none) (l : List α) (ha : a ∈ l) (b : β) : l.foldlM f b = none := by
  induction l generalizing b with
  | nil => simp at ha
  | cons x t ih =>
    rw [List.foldlM_cons]
    by_cases hx : x = a
    · subst hx; rw [hf]; rfl
    · cases hfx : f b x with
      | none => rfl
      | some b1 =>
        have hat : a ∈ t := by
          rcases List.mem_cons.mp ha with h | h
          · exact absurd h.symm hx
          · exact h
        exact ih hat b1

/-- The transfer loop stops on an access outside `gpu_POI_queue` when that queue is
shorter than `poi_queue`. -/
theorem transferResults_short {F : Type} (poi_queue : List (POI2D F))
    (gpu_POI_queue : List (ICGNPOI F)) (hlen : gpu_POI_queue.length < poi_queue.length) :
    transferResults poi_queue gpu_POI_queue = none := by
  unfold transferResults
  apply foldlM_none_of_mem _ gpu_POI_queue.length
  · intro q
    simp [transferStep]
  · exact List.mem_range.mpr hlen

/-- A completed transfer loop pairs the two queues index by index. -/
theorem transferResults_some {F : Type} (poi_queue out : List (POI2D F))
    (gpu_POI_queue : List (ICGNPOI F)) (h : transferResults poi_queue gpu_POI_queue = some out) :
    poi_queue.length ≤ gpu_POI_queue.length ∧
      out = List.zipWith transferOne poi_queue gpu_POI_queue := by
  by_cases hlen : poi_queue.length ≤ gpu_POI_queue.length
  · rw [transferResults_eq _ _ hlen] at h
    exact ⟨hlen, (Option.some.inj h).symm⟩
  · rw [transferResults_short _ _ (by omega)] at h
    cases h

/-- A run of `main` that returns `0` filled both GPU images, had a solver outcome
that lets it go on, and completed the transfer loop; its queue and log are those of
these steps. -/
theorem main_ret_zero {F : Type} [Zero F] [Add F] [IntCast F] (ext : External F)
    (s : Settings F) (h : (main ext s).ret = some 0) :
    ∃ gpu_img out,
      fillImages s.ref_img s.tar_img (allocImages s.ref_img s.tar_img) = some gpu_img ∧
      (solverRun ext s gpu_img).2.2 = true ∧
      transferResults (initGpuQueue (estimatedQueue ext s)).1 (solverRun ext s gpu_img).2.1
        = some out ∧
      (main ext s).poi_queue = out ∧
      (main ext s).log = (solverRun ext s gpu_img).1 ++ saveResults ext s.tar_image_path out := by
  unfold main at h ⊢
  cases hfill : fillImages s.ref_img s.tar_img (allocImages s.ref_img s.tar_img) with
  | none => simp [hfill] at h
  | some gpu_img =>
    simp only [hfill] at h ⊢
    by_cases hgo : (solverRun ext s gpu_img).2.2 = true
    · simp only [hgo, if_true] at h ⊢
      cases htr : transferResults (initGpuQueue (estimatedQueue ext s)).1
          (solverRun ext s gpu_img).2.1 with
      | none => simp [htr] at h
      | some out => exact ⟨gpu_img, out, rfl, hgo, htr, by simp [htr], by simp [htr]⟩
    · simp [hgo] at h

theorem foldl_push {α β : Type} (g : α → β) (l : List α) (acc : List β) :
    l.foldl (fun acc a => acc ++ [g a]) acc = acc ++ l.map g := by
  induction l generalizing acc with
  | nil => simp
  | cons a t ih => simp [ih]

theorem foldl_append_lists {α β : Type} (g : α → List β) (l : List α) (acc : List β) :
    l.foldl (fun acc a => acc ++ g a) acc = acc ++ (l.map g).flatten := by
  induction l generalizing acc with
  | nil => simp
  | cons a t ih => simp [ih]

/-- The two loops of lines 38-46 list the grid row after row. -/
theorem storePOIs_eq {F : Type} [Zero F] [Add F] [IntCast F] (upper_left_point : Point2D F)
    (poi_number_x poi_number_y grid_space : Int) :
    storePOIs upper_left_point poi_number_x poi_number_y grid_space
      = ((List.range poi_number_y.toNat).map (fun i =>
          (List.range poi_number_x.toNat).map (fun j =>
            (POI2D.create (upper_left_point.x + ((wrapInt32 ((j : Int) * grid_space) : Int) : F))
              (upper_left_point.y + ((wrapInt32 ((i : Int) * grid_space) : Int) : F))
                : POI2D F)))).flatten := by
  unfold storePOIs
  simp only [Point2D.add, foldl_push]
  rw [foldl_append_lists]
  simp

/-- What the two `if` statements of lines 120-132 do, case by case. -/
theorem runSolver_cases {F : Type} (ext : External F) (shape_order : Int)
    (gpu_ref_img gpu_tar_img : ICGNImage F) (gpu_POI_queue : List (ICGNPOI F))
    (icgn_conf : ICGNConfiguration F) (log : List (Event F)) :
    (shape_order = 1 ∧
      runSolver ext shape_order gpu_ref_img gpu_tar_img gpu_POI_queue icgn_conf log =
        (if (ext.ICGN2D1GPU gpu_ref_img gpu_tar_img gpu_POI_queue icgn_conf).1 then
          (log ++ [Event.solve 1 gpu_ref_img gpu_tar_img gpu_POI_queue icgn_conf],
            (ext.ICGN2D1GPU gpu_ref_img gpu_tar_img gpu_POI_queue icgn_conf).2, true)
        else
          (log ++ [Event.solve 1 gpu_ref_img gpu_tar_img gpu_POI_queue icgn_conf,
              Event.cerr "ICGNbyGPU return false!"],
            (ext.ICGN2D1GPU gpu_ref_img gpu_tar_img gpu_POI_queue icgn_conf).2, false))) ∨
    (shape_order = 2 ∧
      runSolver ext shape_order gpu_ref_img gpu_tar_img gpu_POI_queue icgn_conf log =
        (if (ext.ICGN2D2GPU gpu_ref_img gpu_tar_img gpu_POI_queue icgn_conf).1 then
          (log ++ [Event.solve 2 gpu_ref_img gpu_tar_img gpu_POI_queue icgn_conf],
            (ext.ICGN2D2GPU gpu_ref_img gpu_tar_img gpu_POI_queue icgn_conf).2, true)
        else
          (log ++ [Event.solve 2 gpu_ref_img gpu_tar_img gpu_POI_queue icgn_conf,
              Event.cerr "ICGNbyGPU return false!"],
            (ext.ICGN2D2GPU gpu_ref_img gpu_tar_img gpu_POI_queue icgn_conf).2, false))) ∨
    (shape_order ≠ 1 ∧ shape_order ≠ 2 ∧
      runSolver ext shape_order gpu_ref_img gpu_tar_img gpu_POI_queue icgn_conf log =
        (log, gpu_POI_queue, true)) := by
  by_cases h1 : shape_order = 1
  · left
    refine ⟨h1, ?_⟩
    subst h1
    unfold runSolver
    cases hres : (ext.ICGN2D1GPU gpu_ref_img gpu_tar_img gpu_POI_queue icgn_conf).1 <;> simp [hres]
  · by_cases h2 : shape_order = 2
    · right; left
      refine ⟨h2, ?_⟩
      subst h2
      unfold runSolver
      cases hres : (ext.ICGN2D2GPU gpu_ref_img gpu_tar_img gpu_POI_queue icgn_conf).1 <;> simp [hres]
    · right; right
      refine ⟨h1, h2, ?_⟩
      unfold runSolver
      simp [h1, h2]

/-! ## The fill loop on images of equal size -/

/-- C1. In a run of `main` that reaches its end, the queue has as many POIs as the
estimator left, and for every index `i`: the transfer loop took the twelve deformation
parameters, `zncc`, `iteration` and `convergence` of `poi_queue[i]` from
`gpu_POI_queue[i]` and left `x`, `y`, `u0`, `v0`, `feature` (and the strain) as they
were before the loop; `u0` and `v0` are the `u` and `v` the estimator left. -/
theorem main_keeps_initial_guess {F : Type} [Zero F] [Add F] [IntCast F] (ext : External F)
    (s : Settings F) (h : (main ext s).ret = some 0) :
    ∃ gpu_img,
      fillImages s.ref_img s.tar_img (allocImages s.ref_img s.tar_img) = some gpu_img ∧
      (main ext s).poi_queue.length = (estimatedQueue ext s).length ∧
      ∀ (i : Nat) (poi : POI2D F), (estimatedQueue ext s)[i]? = some poi →
        ∃ (before : POI2D F) (gpu : ICGNPOI F) (after : POI2D F),
          (initGpuQueue (estimatedQueue ext s)).1[i]? = some before ∧
          (solverRun ext s gpu_img).2.1[i]? = some gpu ∧
          (main ext s).poi_queue[i]? = some after ∧
          before.result.u0 = poi.deformation.u ∧ before.result.v0 = poi.deformation.v ∧
          after.result.u0 = before.result.u0 ∧ after.result.v0 = before.result.v0 ∧
          after.x = before.x ∧ after.y = before.y ∧
          after.result.feature = before.result.feature ∧ after.strain = before.strain ∧
          after.deformation = gpu.final ∧ after.result.zncc = gpu.ZNCC ∧
          after.result.iteration = gpu.iteration ∧ after.result.convergence = gpu.dpNorm := by
  obtain ⟨gpu_img, out, hfill, _, htr, hq, _⟩ := main_ret_zero ext s h
  obtain ⟨hlen, hout⟩ := transferResults_some _ _ _ htr
  rw [initGpuQueue_eq] at hlen hout
  simp only [List.length_map] at hlen
  refine ⟨gpu_img, hfill, ?_, ?_⟩
  · rw [hq, hout]
    simp only [List.length_zipWith, List.length_map]
    omega
  · intro i poi hpoi
    have hi : i < (estimatedQueue ext s).length := by
      rcases List.getElem?_eq_some.mp hpoi with ⟨hi, _⟩
      exact hi
    have hig : i < (solverRun ext s gpu_img).2.1.length := by omega
    refine ⟨saveInitialGuess poi, (solverRun ext s gpu_img).2.1[i],
      transferOne (saveInitialGuess poi) (solverRun ext s gpu_img).2.1[i], ?_, ?_, ?_, ?_⟩
    · rw [initGpuQueue_eq]
      simp [hpoi]
    · exact List.getElem?_eq_getElem hig
    · rw [hq, hout, List.getElem?_zipWith]
      simp [hpoi, List.getElem?_eq_getElem hig]
    · simp [saveInitialGuess, transferOne]

theorem main_keeps_initial_guess_witness :
    (main sampleExternal (sampleSettings 16 2)).ret = some 0 ∧
    ∃ gpu_img,
      fillImages (sampleSettings 16 2).ref_img (sampleSettings 16 2).tar_img
        (allocImages (sampleSettings 16 2).ref_img (sampleSettings 16 2).tar_img) = some gpu_img ∧
      (main sampleExternal (sampleSettings 16 2)).poi_queue.length
        = (estimatedQueue sampleExternal (sampleSettings 16 2)).length ∧
      ∀ (i : Nat) (poi : POI2D Int),
        (estimatedQueue sampleExternal (sampleSettings 16 2))[i]? = some poi →
        ∃ (before : POI2D Int) (gpu : ICGNPOI Int) (after : POI2D Int),
          (initGpuQueue (estimatedQueue sampleExternal (sampleSettings 16 2))).1[i]? = some before ∧
          (solverRun sampleExternal (sampleSettings 16 2) gpu_img).2.1[i]? = some gpu ∧
          (main sampleExternal (sampleSettings 16 2)).poi_queue[i]? = some after ∧
          before.result.u0 = poi.deformation.u ∧ before.result.v0 = poi.deformation.v ∧
          after.result.u0 = before.result.u0 ∧ after.result.v0 = before.result.v0 ∧
          after.x = before.x ∧ after.y = before.y ∧
          after.result.feature = before.result.feature ∧ after.strain = before.strain ∧
          after.deformation = gpu.final ∧ after.result.zncc = gpu.ZNCC ∧
          after.result.iteration = gpu.iteration ∧ after.result.convergence = gpu.dpNorm :=
  ⟨by decide, main_keeps_initial_guess sampleExternal (sampleSettings 16 2) (by decide)⟩

/-- Every solver call in the log of `main` is made on the GPU queue built from the
queue the estimator left, with the configuration of lines 104-108 and the
`shape_order` of the settings. -/
theorem solve_event_of_main {F : Type} [Zero F] [Add F] [IntCast F] (ext : External F)
    (s : Settings F) (shape_order : Int) (gpu_ref_img gpu_tar_img : ICGNImage F)
    (gpu_POI_queue : List (ICGNPOI F)) (icgn_conf : ICGNConfiguration F)
    (h : Event.solve shape_order gpu_ref_img gpu_tar_img gpu_POI_queue icgn_conf
      ∈ (main ext s).log) :
    gpu_POI_queue = (initGpuQueue (estimatedQueue ext s)).2 ∧ icgn_conf = icgnConf s ∧
      shape_order = s.shape_order := by
  unfold main at h
  cases hfill : fillImages s.ref_img s.tar_img (allocImages s.ref_img s.tar_img) with
  | none =>
    simp [hfill] at h
  | some gpu_img =>
    simp only [hfill] at h
    have hrun : solverRun ext s gpu_img = runSolver ext s.shape_order gpu_img.1 gpu_img.2
      (initGpuQueue (estimatedQueue ext s)).2 (icgnConf s)
      [Event.estimate s.subset_radius_x s.subset_radius_y (createdQueue s)] := rfl
    rcases runSolver_cases ext s.shape_order gpu_img.1 gpu_img.2
      (initGpuQueue (estimatedQueue ext s)).2 (icgnConf s)
      [Event.estimate s.subset_radius_x s.subset_radius_y (createdQueue s)] with
      ⟨h1, hr⟩ | ⟨h2, hr⟩ | ⟨_, _, hr⟩
    · rw [hrun, hr] at h
      cases hres : (ext.ICGN2D1GPU gpu_img.1 gpu_img.2 (initGpuQueue (estimatedQueue ext s)).2
          (icgnConf s)).1
      · simp [hres] at h
        exact ⟨h.2.2.2.1, h.2.2.2.2, by rw [h1]; exact h.1⟩
      · simp only [hres, if_true] at h
        cases htr : transferResults (initGpuQueue (estimatedQueue ext s)).1
          (ext.ICGN2D1GPU gpu_img.1 gpu_img.2 (initGpuQueue (estimatedQueue ext s)).2
            (icgnConf s)).2 <;>
          simp [htr, saveResults] at h <;>
          exact ⟨h.2.2.2.1, h.2.2.2.2, by rw [h1]; exact h.1⟩
    · rw [hrun, hr] at h
      cases hres : (ext.ICGN2D2GPU gpu_img.1 gpu_img.2 (initGpuQueue (estimatedQueue ext s)).2
          (icgnConf s)).1
      · simp [hres] at h
        exact ⟨h.2.2.2.1, h.2.2.2.2, by rw [h2]; exact h.1⟩
      · simp only [hres, if_true] at h
        cases htr : transferResults (initGpuQueue (estimatedQueue ext s)).1
          (ext.ICGN2D2GPU gpu_img.1 gpu_img.2 (initGpuQueue (estimatedQueue ext s)).2
            (icgnConf s)).2 <;>
          simp [htr, saveResults] at h <;>
          exact ⟨h.2.2.2.1, h.2.2.2.2, by rw [h2]; exact h.1⟩
    · rw [hrun, hr] at h
      simp only [if_true] at h
      cases htr : transferResults (initGpuQueue (estimatedQueue ext s)).1
        (initGpuQueue (estimatedQueue ext s)).2 <;>
        simp [htr, saveResults] at h

/-- C2. The solver starts from what the estimator left: the GPU queue built in lines
84-98 lists, in the order of `poi_queue`, one GPU POI per POI, placed at the POI and
with the `u, ux, uy, v, vx, vy` of the POI as `initial`; and every solver call of
`main` is made on the GPU queue so built from the queue that
`FeatureAffine2D::compute` left. -/
theorem gpu_queue_starts_from_estimate {F : Type} [Zero F] [Add F] [IntCast F]
    (ext : External F) (s : Settings F) :
    (∀ poi_queue : List (POI2D F),
      (initGpuQueue poi_queue).2.map (fun gpu =>
          (gpu.x, gpu.y, gpu.initial.u, gpu.initial.ux, gpu.initial.uy,
            gpu.initial.v, gpu.initial.vx, gpu.initial.vy))
        = poi_queue.map (fun poi =>
          (poi.x, poi.y, poi.deformation.u, poi.deformation.ux, poi.deformation.uy,
            poi.deformation.v, poi.deformation.vx, poi.deformation.vy))) ∧
    (∀ (shape_order : Int) (gpu_ref_img gpu_tar_img : ICGNImage F)
      (gpu_POI_queue : List (ICGNPOI F)) (icgn_conf : ICGNConfiguration F),
      Event.solve shape_order gpu_ref_img gpu_tar_img gpu_POI_queue icgn_conf
        ∈ (main ext s).log →
      gpu_POI_queue.map (fun gpu =>
          (gpu.x, gpu.y, gpu.initial.u, gpu.initial.ux, gpu.initial.uy,
            gpu.initial.v, gpu.initial.vx, gpu.initial.vy))
        = (estimatedQueue ext s).map (fun poi =>
          (poi.x, poi.y, poi.deformation.u, poi.deformation.ux, poi.deformation.uy,
            poi.deformation.v, poi.deformation.vx, poi.deformation.vy))) := by
  have hmap : ∀ poi_queue : List (POI2D F),
      (initGpuQueue poi_queue).2.map (fun gpu =>
          (gpu.x, gpu.y, gpu.initial.u, gpu.initial.ux, gpu.initial.uy,
            gpu.initial.v, gpu.initial.vx, gpu.initial.vy))
        = poi_queue.map (fun poi =>
          (poi.x, poi.y, poi.deformation.u, poi.deformation.ux, poi.deformation.uy,
            poi.deformation.v, poi.deformation.vx, poi.deformation.vy)) := by
    intro poi_queue
    rw [initGpuQueue_eq]
    simp [List.map_map, Function.comp_def, initGpuPOI, ICGNPOI.create]
  refine ⟨hmap, ?_⟩
  intro shape_order gpu_ref_img gpu_tar_img gpu_POI_queue icgn_conf h
  obtain ⟨hq, _, _⟩ := solve_event_of_main ext s shape_order gpu_ref_img gpu_tar_img
    gpu_POI_queue icgn_conf h
  rw [hq]
  exact hmap _

theorem gpu_queue_starts_from_estimate_witness :
    Event.solve 2 ⟨3, 2, [some 0, some 1, some 2, some 10, some 11, some 12]⟩
        ⟨3, 2, [some 0, some 1, some 2, some 10, some 11, some 12]⟩
        (initGpuQueue (estimatedQueue sampleExternal (sampleSettings 16 2))).2
        (icgnConf (sampleSettings 16 2))
      ∈ (main sampleExternal (sampleSettings 16 2)).log ∧
    (initGpuQueue (estimatedQueue sampleExternal (sampleSettings 16 2))).2.map
        (fun gpu =>
          (gpu.x, gpu.y, gpu.initial.u, gpu.initial.ux, gpu.initial.uy,
            gpu.initial.v, gpu.initial.vx, gpu.initial.vy))
      = (estimatedQueue sampleExternal (sampleSettings 16 2)).map
        (fun poi =>
          (poi.x, poi.y, poi.deformation.u, poi.deformation.ux, poi.deformation.uy,
            poi.deformation.v, poi.deformation.vx, poi.deformation.vy)) :=
  ⟨by decide,
    (gpu_queue_starts_from_estimate sampleExternal (sampleSettings 16 2)).2 2
      ⟨3, 2, [some 0, some 1, some 2, some 10, some 11, some 12]⟩
      ⟨3, 2, [some 0, some 1, some 2, some 10, some 11, some 12]⟩
      (initGpuQueue (estimatedQueue sampleExternal (sampleSettings 16 2))).2
      (icgnConf (sampleSettings 16 2)) (by decide)⟩

/-- C4. On a reference image 1 wide and 2 high and a target image 2 wide and 2 high,
the array of the target image is allocated with 2 cells where the image has 4 pixels,
and the fill loop stops on a write outside that array. -/
theorem target_array_sized_by_reference :
    (allocImages (sampleImage 1 2) (sampleImage 2 2)).2.w = 2 ∧
    (allocImages (sampleImage 1 2) (sampleImage 2 2)).2.h = 2 ∧
    (allocImages (sampleImage 1 2) (sampleImage 2 2)).2.data.length = 2 ∧
    (sampleImage 2 2).width * (sampleImage 2 2).height = 4 ∧
    fillCell (sampleImage 1 2) (sampleImage 2 2) 1 0
      (allocImages (sampleImage 1 2) (sampleImage 2 2)) = none ∧
    fillImages (sampleImage 1 2) (sampleImage 2 2)
      (allocImages (sampleImage 1 2) (sampleImage 2 2)) = none := by
  decide

theorem foldl_fields {F : Type} (fmt : F → List Char) (delimiter : List Char) (l : List F)
    (file_out : List Char) :
    l.foldl (fun file_out v => file_out ++ fmt v ++ delimiter) file_out
      = file_out ++ tableLine delimiter (l.map fmt) := by
  induction l generalizing file_out with
  | nil => simp [tableLine]
  | cons a t ih =>
    rw [List.foldl_cons, ih]
    simp [tableLine]

theorem tableLine_append (delimiter : List Char) (a b : List (List Char)) :
    tableLine delimiter (a ++ b) = tableLine delimiter a ++ tableLine delimiter b := by
  simp [tableLine]

theorem tableText_cons (delimiter : List Char) (row : List (List Char))
    (rows : List (List (List Char))) :
    tableText delimiter (row :: rows)
      = tableLine delimiter row ++ ['\n'] ++ tableText delimiter rows := by
  simp [tableText]

/-- The successive lines of a text that starts with a line without line feed. -/
theorem getlines_line (l rest : List Char) (hl : '\n' ∉ l) :
    getlines (l ++ '\n' :: rest) = l :: getlines rest := by
  induction l with
  | nil => simp [getlines]
  | cons c t ih =>
    have hc : c ≠ '\n' := fun h => hl (by simp [h])
    have ht : '\n' ∉ t := fun h => hl (List.mem_cons_of_mem _ h)
    rw [List.cons_append, getlines, if_neg hc, ih ht]

/-- The lines of a table whose fields and delimiter hold no line feed are read back
one by one by `getline`. -/
theorem getlines_tableText (delimiter : List Char) (rows : List (List (List Char)))
    (hrows : ∀ row ∈ rows, '\n' ∉ tableLine delimiter row) :
    getlines (tableText delimiter rows) = rows.map (tableLine delimiter) := by
  induction rows with
  | nil => simp [tableText, getlines]
  | cons row rows ih =>
    rw [tableText_cons, List.append_assoc, List.singleton_append,
      getlines_line _ _ (hrows row (List.mem_cons_self _ _)),
      ih (fun r hr => hrows r (List.mem_cons_of_mem _ hr))]
    rfl

theorem not_mem_tableLine (delimiter : List Char) (fields : List (List Char)) (c : Char)
    (hd : c ∉ delimiter) (hf : ∀ field ∈ fields, c ∉ field) :
    c ∉ tableLine delimiter fields := by
  unfold tableLine
  intro h
  obtain ⟨l, hl, hc⟩ := List.mem_flatten.mp h
  obtain ⟨field, hfield, rfl⟩ := List.mem_map.mp hl
  rcases List.mem_append.mp hc with h1 | h1
  · exact hf field hfield h1
  · exact hd h1

/-- The characters `saveTable2D` sends to an open file are the table of the title line
and of one line per POI. -/
theorem saveTable2D_eq_tableText {F : Type} (fmt : F → List Char) (delimiter : List Char)
    (poi_queue : List (POI2D F)) :
    saveTable2D fmt delimiter true poi_queue
      = tableText delimiter (table2DHeader :: poi_queue.map (table2DRow fmt)) := by
  have hstep : ∀ (file_out : List Char) (iter : POI2D F),
      (let file_out := file_out ++ fmt iter.x ++ delimiter
       let file_out := file_out ++ fmt iter.y ++ delimiter
       let file_out := file_out ++ fmt iter.deformation.u ++ delimiter
       let file_out := file_out ++ fmt iter.deformation.v ++ delimiter
       let file_out :=
         iter.result.r.foldl (fun file_out ri => file_out ++ fmt ri ++ delimiter) file_out
       let file_out :=
         iter.strain.e.foldl (fun file_out ei => file_out ++ fmt ei ++ delimiter) file_out
       file_out ++ ['\n'])
      = file_out ++ (tableLine delimiter (table2DRow fmt iter) ++ ['\n']) := by
    intro file_out iter
    simp only [foldl_fields, table2DRow, POI2D.saved, List.map_append, tableLine_append]
    simp [tableLine]
  unfold saveTable2D
  simp only [if_true, hstep]
  rw [foldl_append_lists, tableText_cons]
  simp [tableText, tableLine, table2DHeader, Function.comp_def]

/-- The characters `saveDeformationTable2D` sends to an open file are the table of the
title line and of one line per POI. -/
theorem saveDeformationTable2D_eq_tableText {F : Type} (fmt : F → List Char)
    (delimiter : List Char) (poi_queue : List (POI2D F)) :
    saveDeformationTable2D fmt delimiter true poi_queue
      = tableText delimiter (deformationHeader :: poi_queue.map (deformationRow fmt)) := by
  have hstep : ∀ (file_out : List Char) (iter : POI2D F),
      (let file_out := file_out ++ fmt iter.x ++ delimiter
       let file_out := file_out ++ fmt iter.y ++ delimiter
       let file_out :=
         iter.deformation.p.foldl (fun file_out pi => file_out ++ fmt pi ++ delimiter) file_out
       file_out ++ ['\n'])
      = file_out ++ (tableLine delimiter (deformationRow fmt iter) ++ ['\n']) := by
    intro file_out iter
    simp only [foldl_fields, deformationRow, List.map_append, tableLine_append]
    simp [tableLine]
  unfold saveDeformationTable2D
  simp only [if_true, hstep]
  rw [foldl_append_lists, tableText_cons]
  simp [tableText, tableLine, deformationHeader, Function.comp_def]

/-! ## Lemmas on the reader -/

theorem findAux_of_isPrefixOf (d s : List Char) (i : Nat) (h : d.isPrefixOf s = true) :
    findAux d s i = some i := by
  cases s with
  | nil => simp [findAux, h]
  | cons c t => simp [findAux, h]

theorem findAux_cons (d : List Char) (c : Char) (t : List Char) (i : Nat) :
    findAux d (c :: t) i
      = if d.isPrefixOf (c :: t) = true then some i else findAux d t (i + 1) := rfl

theorem findAux_shift (d : List Char) (s : List Char) (i : Nat) :
    findAux d s i = (findAux d s 0).map (· + i) := by
  induction s generalizing i with
  | nil =>
    simp only [findAux]
    split <;> simp
  | cons c t ih =>
    simp only [findAux]
    split
    · simp
    · rw [ih (i + 1), ih 1]
      cases findAux d t 0 with
      | none => rfl
      | some p => simp; omega

theorem isPrefixOf_shorten (d x more : List Char) (hlen : d.length ≤ x.length)
    (h : d.isPrefixOf (x ++ more) = true) : d.isPrefixOf x = true := by
  rw [List.isPrefixOf_iff_prefix] at h ⊢
  exact List.prefix_of_prefix_length_le h (List.prefix_append x more) hlen

theorem findAux_append_more (d f more : List Char)
    (h : findAux d (f ++ d) 0 = some f.length) :
    findAux d (f ++ d ++ more) 0 = some f.length := by
  induction f with
  | nil =>
    apply findAux_of_isPrefixOf
    rw [List.isPrefixOf_iff_prefix]
    simp
  | cons c t ih =>
    have e1 : (c :: t) ++ d = c :: (t ++ d) := rfl
    have e2 : (c :: t) ++ d ++ more = c :: (t ++ d ++ more) := rfl
    rw [e1, findAux_cons] at h
    rw [e2, findAux_cons]
    by_cases hp : d.isPrefixOf (c :: (t ++ d)) = true
    · rw [if_pos hp] at h
      simp at h
    · rw [if_neg hp] at h
      have hp2 : ¬ d.isPrefixOf (c :: (t ++ d ++ more)) = true := by
        intro hq
        apply hp
        have := isPrefixOf_shorten d (c :: (t ++ d)) more (by simp; omega) (by simpa using hq)
        exact this
      rw [if_neg hp2]
      rw [findAux_shift] at h ⊢
      have ht : findAux d (t ++ d) 0 = some t.length := by
        cases hx : findAux d (t ++ d) 0 with
        | none => rw [hx] at h; simp at h
        | some p =>
          rw [hx] at h
          simp at h
          rw [h]
      rw [ih ht]
      simp

theorem find_at_field (d pre f more : List Char)
    (h : find (f ++ d) d 0 = some f.length) (p : Nat) (hp : p = pre.length + f.length) :
    find (pre ++ (f ++ d ++ more)) d pre.length = some p := by
  subst hp
  have h0 : findAux d (f ++ d) 0 = some f.length := by simpa [find] using h
  unfold find
  rw [if_pos (by simp), List.drop_left, findAux_shift, findAux_append_more d f more h0]
  simp [Nat.add_comm]

theorem find_at_last (d pre last : List Char) (h : find last d 0 = none) :
    find (pre ++ last) d pre.length = none := by
  have h0 : findAux d last 0 = none := by simpa [find] using h
  unfold find
  rw [if_pos (by simp), List.drop_left, findAux_shift, h0]
  rfl

theorem tokenLoop_succ {F : Type} (stof : List Char → Option F) (d line : List Char)
    (fuel position1 : Nat) (key_buffer : List F) :
    tokenLoop stof d line (fuel + 1) position1 key_buffer =
      (substr line position1 ((match find line d position1 with
          | some p => p
          | none => line.length) - position1)) >>= fun token =>
        pushVariable stof token key_buffer >>= fun key_buffer =>
          if (match find line d position1 with
              | some p => p
              | none => line.length) < line.length ∧
              (match find line d position1 with
              | some p => p
              | none => line.length) + d.length < line.length then
            tokenLoop stof d line fuel
              ((match find line d position1 with
                | some p => p
                | none => line.length) + d.length) key_buffer
          else pure key_buffer := rfl

theorem pushAll_cons {F : Type} (stof : List Char → Option F) (f : List Char)
    (fs : List (List Char)) (buf : List F) :
    pushAll stof (f :: fs) buf = pushVariable stof f buf >>= fun b => pushAll stof fs b := by
  simp [pushAll]

theorem pushAll_nil {F : Type} (stof : List Char → Option F) (buf : List F) :
    pushAll stof [] buf = .ok buf := rfl

theorem pushVariable_nil {F : Type} (stof : List Char → Option F) (buf : List F) :
    pushVariable stof [] buf = .ok buf := by
  simp [pushVariable]

/-- The splitting loop on a line made of fields that each end at the next delimiter,
followed by a last piece without delimiter: the fields are pushed in order. -/
theorem tokenLoop_fields {F : Type} (stof : List Char → Option F) (d : List Char)
    (hd : d ≠ []) (last : List Char) (hlast : find last d 0 = none)
    (fs : List (List Char)) (hfs : ∀ f ∈ fs, find (f ++ d) d 0 = some f.length) :
    ∀ (pre : List Char) (buf : List F) (fuel : Nat), fs.length < fuel →
      tokenLoop stof d (pre ++ ((fs.map (· ++ d)).flatten ++ last)) fuel pre.length buf
        = pushAll stof (fs ++ [last]) buf := by
  induction fs with
  | nil =>
    intro pre buf fuel hfuel
    obtain ⟨fuel, rfl⟩ : ∃ k, fuel = k + 1 := ⟨fuel - 1, by omega⟩
    rw [tokenLoop_succ]
    simp only [List.map_nil, List.flatten_nil, List.nil_append]
    rw [find_at_last d pre last hlast]
    simp only [substr, List.length_append, Nat.le_add_right, if_true, Nat.add_sub_cancel_left,
      List.drop_left, List.take_length, Nat.lt_irrefl, false_and, if_false]
    rw [pushAll_cons]
    show (pure last >>= fun token => _) = _
    rw [pure_bind]
    congr 1
  | cons f fs ih =>
    intro pre buf fuel hfuel
    obtain ⟨fuel, rfl⟩ : ∃ k, fuel = k + 1 := ⟨fuel - 1, by omega⟩
    have hfuel2 : fs.length < fuel := by simpa using hfuel
    have hf := hfs f (List.mem_cons_self _ _)
    have hrest := fun g hg => hfs g (List.mem_cons_of_mem _ hg)
    rw [tokenLoop_succ]
    have hline : pre ++ (((f :: fs).map (· ++ d)).flatten ++ last)
        = pre ++ (f ++ d ++ ((fs.map (· ++ d)).flatten ++ last)) := by
      simp
    generalize hp : pre.length + f.length = p
    rw [hline, find_at_field d pre f _ hf p hp.symm]
    simp only [substr, List.length_append, Nat.le_add_right, if_true, List.drop_left]
    have hsub : p - pre.length = f.length := by omega
    have htake : List.take f.length (f ++ d ++ ((fs.map (· ++ d)).flatten ++ last)) = f := by
      rw [List.append_assoc, List.take_left]
    rw [hsub, htake, List.cons_append, pushAll_cons]
    show (pure f >>= fun token => _) = _
    rw [pure_bind]
    congr 1
    funext buf1
    have hdpos : 0 < d.length := List.length_pos.mpr hd
    by_cases hempty : (fs.map (· ++ d)).flatten ++ last = []
    · have hfs_nil : fs = [] := by
        cases fs with
        | nil => rfl
        | cons g gs =>
          exfalso
          have := congrArg List.length hempty
          simp at this
          exact hd this.2.1
      have hlast_nil : last = [] := by
        subst hfs_nil
        simpa using hempty
      subst hfs_nil hlast_nil
      simp only [List.map_nil, List.flatten_nil, List.append_nil, List.length_nil,
        Nat.add_zero, List.nil_append]
      rw [pushAll_cons, pushVariable_nil]
      split
      · rename_i hc
        omega
      · rfl
    · have hpos : 0 < ((fs.map (· ++ d)).flatten ++ last).length := List.length_pos.mpr hempty
      simp only [List.length_append] at hpos ⊢
      split
      case neg.isFalse hc => omega
      have hline2 : pre ++ (f ++ d ++ ((fs.map (· ++ d)).flatten ++ last))
          = (pre ++ f ++ d) ++ ((fs.map (· ++ d)).flatten ++ last) := by
        simp
      have hpos2 : p + d.length = (pre ++ f ++ d).length := by
        simp; omega
      rw [hline2, hpos2]
      exact ih hrest (pre ++ f ++ d) buf1 fuel hfuel2

/-- A field in which the first character of the delimiter does not occur ends at the
first occurrence of the delimiter behind it. -/
theorem find_of_head_not_mem (c : Char) (d f : List Char) (hc : c ∉ f) :
    find (f ++ c :: d) (c :: d) 0 = some f.length := by
  have h0 : findAux (c :: d) (f ++ c :: d) 0 = some f.length := by
    induction f with
    | nil =>
      apply findAux_of_isPrefixOf
      rw [List.isPrefixOf_iff_prefix]
      simp
    | cons x t ih =>
      have hx : x ≠ c := fun h => hc (by simp [h])
      have ht : c ∉ t := fun h => hc (List.mem_cons_of_mem _ h)
      have e1 : (x :: t) ++ c :: d = x :: (t ++ c :: d) := rfl
      rw [e1, findAux_cons]
      have hp : ¬ (c :: d).isPrefixOf (x :: (t ++ c :: d)) = true := by
        rw [List.isPrefixOf_iff_prefix]
        intro h
        obtain ⟨r, hr⟩ := h
        have := List.head_eq_of_cons_eq hr
        exact hx this.symm
      rw [if_neg hp, findAux_shift, ih ht]
      rfl
  simpa [find] using h0

theorem find_nil (delimiter : List Char) (hd : delimiter ≠ []) : find [] delimiter 0 = none := by
  cases delimiter with
  | nil => exact absurd rfl hd
  | cons c t => rfl

theorem foldlM_push_ok {α β : Type} (g : α → Except Fault β) (h : α → β) (l : List α)
    (hl : ∀ a ∈ l, g a = .ok (h a)) (acc : List β) :
    l.foldlM (fun q a => do
      let p ← g a
      pure (q ++ [p])) acc = .ok (acc ++ l.map h) := by
  induction l generalizing acc with
  | nil => simp; rfl
  | cons a t ih =>
    rw [List.foldlM_cons, hl a (List.mem_cons_self _ _)]
    show List.foldlM _ (acc ++ [h a]) t = _
    rw [ih (fun b hb => hl b (List.mem_cons_of_mem _ hb))]
    simp

theorem foldlM_push_length {α β : Type} (g : α → Except Fault β) (l : List α)
    (acc out : List β)
    (h : l.foldlM (fun q a => do
      let p ← g a
      pure (q ++ [p])) acc = .ok out) :
    out.length = acc.length + l.length := by
  induction l generalizing acc with
  | nil =>
    have : acc = out := by
      have h2 : (Except.ok acc : Except Fault (List β)) = .ok out := h
      exact Except.ok.inj h2
    subst this
    simp
  | cons a t ih =>
    rw [List.foldlM_cons] at h
    cases hg : g a with
    | error e =>
      rw [hg] at h
      cases h
    | ok p =>
      rw [hg] at h
      have := ih (acc ++ [p]) h
      simp at this ⊢
      omega

/-- The pushes for the printed values of a line, each value being printed as a
non-empty text that `stof` reads back. -/
theorem pushAll_printed {F : Type} (fmt : F → List Char) (stof : List Char → Option F)
    (rt : F → F) (vs : List F)
    (hvs : ∀ v ∈ vs, fmt v ≠ [] ∧ stof (fmt v) = some (rt v)) (buf : List F) :
    pushAll stof (vs.map fmt ++ [[]]) buf = .ok (buf ++ vs.map rt) := by
  induction vs generalizing buf with
  | nil =>
    simp only [List.map_nil, List.nil_append, List.append_nil]
    rw [pushAll_cons, pushVariable_nil]
    rfl
  | cons v t ih =>
    obtain ⟨hne, hst⟩ := hvs v (List.mem_cons_self _ _)
    rw [List.map_cons, List.cons_append, pushAll_cons]
    have hpush : pushVariable stof (fmt v) buf = .ok (buf ++ [rt v]) := by
      simp [pushVariable, hne, hst]
    rw [hpush]
    show pushAll stof (t.map fmt ++ [[]]) (buf ++ [rt v]) = _
    rw [ih (fun w hw => hvs w (List.mem_cons_of_mem _ hw))]
    simp

/-- The reading loop body on the line `saveTable2D` wrote for a POI. -/
theorem loadTableLine_row {F : Type} [Zero F] (fmt : F → List Char)
    (stof : List Char → Option F) (rt : F → F) (delimiter : List Char) (fuel : Nat)
    (poi : POI2D F) (hd : delimiter ≠ []) (hfuel : 13 < fuel)
    (hv : ∀ v ∈ poi.saved, fmt v ≠ [] ∧
      find (fmt v ++ delimiter) delimiter 0 = some (fmt v).length ∧ stof (fmt v) = some (rt v)) :
    loadTableLine stof fuel delimiter (tableLine delimiter (table2DRow fmt poi))
      = .ok (reloaded rt poi) := by
  unfold loadTableLine
  have hline : tableLine delimiter (table2DRow fmt poi)
      = ([] : List Char) ++ (((poi.saved.map fmt).map (· ++ delimiter)).flatten ++ []) := by
    simp [tableLine, table2DRow]
  have hloop := tokenLoop_fields stof delimiter hd [] (find_nil delimiter hd) (poi.saved.map fmt)
    (by
      intro f hf
      obtain ⟨v, hvmem, rfl⟩ := List.mem_map.mp hf
      exact (hv v hvmem).2.1) [] [] fuel (by simpa [POI2D.saved, Result2D.r, StrainVector2D.e] using hfuel)
  rw [hline]
  simp only [List.length_nil] at hloop
  rw [hloop, pushAll_printed fmt stof rt poi.saved (fun v hvmem => ⟨(hv v hvmem).1, (hv v hvmem).2.2⟩)]
  rfl

/-- The lines `getline` reads from the file of `saveTable2D` when neither the
delimiter nor a printed value holds a line feed. -/
theorem getlines_saveTable2D {F : Type} (fmt : F → List Char) (delimiter : List Char)
    (poi_queue : List (POI2D F)) (hd : '\n' ∉ delimiter)
    (hfmt : ∀ poi ∈ poi_queue, ∀ v ∈ poi.saved, '\n' ∉ fmt v) :
    getlines (saveTable2D fmt delimiter true poi_queue)
      = tableLine delimiter table2DHeader
          :: poi_queue.map (fun poi => tableLine delimiter (table2DRow fmt poi)) := by
  rw [saveTable2D_eq_tableText, getlines_tableText]
  · simp [List.map_map, Function.comp_def]
  · intro row hrow
    rcases List.mem_cons.mp hrow with rfl | hrow
    · exact not_mem_tableLine _ _ _ hd (by decide)
    · obtain ⟨poi, hpoi, rfl⟩ := List.mem_map.mp hrow
      apply not_mem_tableLine _ _ _ hd
      intro field hfield
      obtain ⟨v, hv, rfl⟩ := List.mem_map.mp hfield
      exact hfmt poi hpoi v hv

/-! ## The claims on the writer and the reader -/

/-- C6. `saveTable2D` writes the title line and then one line per POI in queue order,
every field followed by the delimiter and every line ended by a line feed; the
titles are `x, y, u, v, u0, v0, ZNCC, iteration, convergence, feature, exx, eyy, exy`;
the line of a POI holds `x`, `y`, `deformation.u`, `deformation.v`, the elements of
`result.r` and the elements of `strain.e`, as many fields as the title line; when
neither the delimiter nor a printed value holds a line feed, `getline` reads the
file back as exactly these lines. -/
theorem saveTable2D_layout {F : Type} (fmt : F → List Char) (delimiter : List Char)
    (poi_queue : List (POI2D F)) :
    saveTable2D fmt delimiter true poi_queue
        = tableText delimiter (table2DHeader :: poi_queue.map (table2DRow fmt)) ∧
    table2DHeader.map String.mk
        = ["x", "y", "u", "v", "u0", "v0", "ZNCC", "iteration", "convergence", "feature",
            "exx", "eyy", "exy"] ∧
    (∀ poi : POI2D F, table2DRow fmt poi
        = [fmt poi.x, fmt poi.y, fmt poi.deformation.u, fmt poi.deformation.v]
            ++ poi.result.r.map fmt ++ poi.strain.e.map fmt) ∧
    (∀ poi : POI2D F, (table2DRow fmt poi).length = table2DHeader.length) ∧
    ('\n' ∉ delimiter → (∀ poi ∈ poi_queue, ∀ v ∈ poi.saved, '\n' ∉ fmt v) →
      getlines (saveTable2D fmt delimiter true poi_queue)
        = tableLine delimiter table2DHeader
            :: poi_queue.map (fun poi => tableLine delimiter (table2DRow fmt poi))) := by
  refine ⟨saveTable2D_eq_tableText fmt delimiter poi_queue, by decide, ?_, ?_, ?_⟩
  · intro poi
    simp [table2DRow, POI2D.saved]
  · intro poi
    simp [table2DRow, POI2D.saved, Result2D.r, StrainVector2D.e, table2DHeader]
  · intro hd hfmt
    exact getlines_saveTable2D fmt delimiter poi_queue hd hfmt

theorem saveTable2D_layout_witness :
    '\n' ∉ ",".toList ∧ (∀ poi ∈ [samplePOI, fivePOI], ∀ v ∈ poi.saved, '\n' ∉ fmtFixed v) ∧
    getlines (saveTable2D fmtFixed ",".toList true [samplePOI, fivePOI])
      = tableLine ",".toList table2DHeader
          :: [samplePOI, fivePOI].map (fun poi => tableLine ",".toList (table2DRow fmtFixed poi)) :=
  ⟨by decide, by decide,
    (saveTable2D_layout fmtFixed ",".toList [samplePOI, fivePOI]).2.2.2.2 (by decide) (by decide)⟩

/-- C7. `saveDeformationTable2D` writes the title line and then one line per POI in
queue order, every field followed by the delimiter and every line ended by a line
feed; the titles are `x, y` and the twelve parameters in the order
`u, ux, uy, uxx, uxy, uyy, v, vx, vy, vxx, vxy, vyy`; the line of a POI holds `x`, `y`
and the elements of `deformation.p` in index order, fourteen fields like the title
line, each value under the title of its parameter; when neither the delimiter nor a
printed value holds a line feed, `getline` reads the file back as exactly these
lines. -/
theorem saveDeformationTable2D_layout {F : Type} (fmt : F → List Char)
    (delimiter : List Char) (poi_queue : List (POI2D F)) :
    saveDeformationTable2D fmt delimiter true poi_queue
        = tableText delimiter (deformationHeader :: poi_queue.map (deformationRow fmt)) ∧
    (∀ poi : POI2D F, deformationRow fmt poi
        = [fmt poi.x, fmt poi.y] ++ poi.deformation.p.map fmt) ∧
    (∀ poi : POI2D F,
      (deformationHeader.map String.mk).zip (deformationRow fmt poi)
        = [("x", fmt poi.x), ("y", fmt poi.y),
            ("u", fmt poi.deformation.u), ("ux", fmt poi.deformation.ux),
            ("uy", fmt poi.deformation.uy), ("uxx", fmt poi.deformation.uxx),
            ("uxy", fmt poi.deformation.uxy), ("uyy", fmt poi.deformation.uyy),
            ("v", fmt poi.deformation.v), ("vx", fmt poi.deformation.vx),
            ("vy", fmt poi.deformation.vy), ("vxx", fmt poi.deformation.vxx),
            ("vxy", fmt poi.deformation.vxy), ("vyy", fmt poi.deformation.vyy)]) ∧
    (∀ poi : POI2D F, (deformationRow fmt poi).length = 14 ∧ deformationHeader.length = 14) ∧
    ('\n' ∉ delimiter →
      (∀ poi ∈ poi_queue, ∀ v ∈ [poi.x, poi.y] ++ poi.deformation.p, '\n' ∉ fmt v) →
      getlines (saveDeformationTable2D fmt delimiter true poi_queue)
        = tableLine delimiter deformationHeader
            :: poi_queue.map (fun poi => tableLine delimiter (deformationRow fmt poi))) := by
  refine ⟨saveDeformationTable2D_eq_tableText fmt delimiter poi_queue, ?_, ?_, ?_, ?_⟩
  · intro poi
    simp [deformationRow]
  · intro poi
    have hh : deformationHeader.map String.mk
        = ["x", "y", "u", "ux", "uy", "uxx", "uxy", "uyy", "v", "vx", "vy", "vxx", "vxy",
            "vyy"] := by decide
    rw [hh]
    simp [deformationRow, DeformationVector2D.p]
  · intro poi
    simp [deformationRow, DeformationVector2D.p, deformationHeader]
  · intro hd hfmt
    rw [saveDeformationTable2D_eq_tableText, getlines_tableText]
    · simp [List.map_map, Function.comp_def]
    · intro row hrow
      rcases List.mem_cons.mp hrow with rfl | hrow
      · exact not_mem_tableLine _ _ _ hd (by decide)
      · obtain ⟨poi, hpoi, rfl⟩ := List.mem_map.mp hrow
        apply not_mem_tableLine _ _ _ hd
        intro field hfield
        obtain ⟨v, hv, rfl⟩ := List.mem_map.mp hfield
        exact hfmt poi hpoi v hv

theorem saveDeformationTable2D_layout_witness :
    '\n' ∉ ",".toList ∧
    (∀ poi ∈ [samplePOI], ∀ v ∈ [poi.x, poi.y] ++ poi.deformation.p, '\n' ∉ fmtFixed v) ∧
    getlines (saveDeformationTable2D fmtFixed ",".toList true [samplePOI])
      = tableLine ",".toList deformationHeader
          :: [samplePOI].map (fun poi => tableLine ",".toList (deformationRow fmtFixed poi)) :=
  ⟨by decide, by decide,
    (saveDeformationTable2D_layout fmtFixed ",".toList [samplePOI]).2.2.2.2 (by decide)
      (by decide)⟩

set_option maxRecDepth 100000 in
/-- C8 as stated fails, in two ways.  With a line feed as delimiter, which occurs in
no printed number, the table of the empty queue is not read back as the empty queue:
the second title is taken for a data line and `stof` throws on it.  With `55` as
delimiter, which occurs in none of the printed numbers of a POI at `x = 0.00390625`,
the first field is cut one character early: the POI comes back at `x = 0.0039062`,
`y = 50`, where it was saved at `y = 0`. -/
theorem loadTable2D_saveTable2D_fails :
    ("\n".toList ≠ [] ∧
      loadTable2D stofFixed 14 "\n".toList
          (saveTable2D fmtFixed "\n".toList true ([] : List (POI2D Int)))
        = .error .stof_throws) ∧
    ("55".toList ≠ [] ∧
      (∀ v ∈ fivePOI.saved, find (fmtFixed v) "55".toList 0 = none) ∧
      (∀ v ∈ fivePOI.saved, stofFixed (fmtFixed v) = some v) ∧
      loadTable2D stofFixed 14 "55".toList (saveTable2D fmtFixed "55".toList true [fivePOI])
        = .ok [{ fivePOI with x := 390620, y := 5000000000 }] ∧
      fivePOI.x = 390625 ∧ fivePOI.y = 0) :=
  ⟨⟨by decide, by rfl⟩, by decide, by decide, by decide, by rfl, by rfl, by rfl⟩

/-- C8, amended. `loadTable2D` undoes `saveTable2D` for every POI queue and every
non-empty delimiter that holds no line feed and whose first occurrence in a printed
number followed by the delimiter is right after the number (so with a delimiter whose
first character occurs in no printed number), the printed numbers being non-empty
texts without line feed that `stof` reads: the queue read back has the same length
and order, and its `i`-th POI has the `x`, `y`, `deformation.u`, `deformation.v`,
`result.r` and `strain.e` of the `i`-th saved POI, each value `v` as `stof` reads its
printed text.  The title line gives no POI, the delimiter at the end of a line gives
no value. -/
theorem loadTable2D_saveTable2D {F : Type} [Zero F] (fmt : F → List Char)
    (stof : List Char → Option F) (rt : F → F) (delimiter : List Char) (fuel : Nat)
    (poi_queue : List (POI2D F)) (hd : delimiter ≠ []) (hnl : '\n' ∉ delimiter)
    (hfuel : 13 < fuel)
    (hv : ∀ poi ∈ poi_queue, ∀ v ∈ poi.saved, fmt v ≠ [] ∧ '\n' ∉ fmt v ∧
      find (fmt v ++ delimiter) delimiter 0 = some (fmt v).length ∧
      stof (fmt v) = some (rt v)) :
    loadTable2D stof fuel delimiter (saveTable2D fmt delimiter true poi_queue)
      = .ok (poi_queue.map (reloaded rt)) := by
  unfold loadTable2D
  rw [getlines_saveTable2D fmt delimiter poi_queue hnl
    (fun poi hpoi v hvm => (hv poi hpoi v hvm).2.1)]
  rw [List.drop_one, List.tail_cons, List.foldlM_map]
  have := foldlM_push_ok
    (fun poi => loadTableLine stof fuel delimiter (tableLine delimiter (table2DRow fmt poi)))
    (reloaded rt) poi_queue
    (fun poi hpoi => loadTableLine_row fmt stof rt delimiter fuel poi hd hfuel
      (fun v hvm => ⟨(hv poi hpoi v hvm).1, (hv poi hpoi v hvm).2.2⟩)) []
  simpa using this

theorem loadTable2D_saveTable2D_witness :
    ",".toList ≠ [] ∧ '\n' ∉ ",".toList ∧ 13 < 14 ∧
    (∀ poi ∈ [samplePOI, fivePOI], ∀ v ∈ poi.saved, fmtFixed v ≠ [] ∧ '\n' ∉ fmtFixed v ∧
      find (fmtFixed v ++ ",".toList) ",".toList 0 = some (fmtFixed v).length ∧
      stofFixed (fmtFixed v) = some (id v)) ∧
    loadTable2D stofFixed 14 ",".toList (saveTable2D fmtFixed ",".toList true [samplePOI, fivePOI])
      = .ok ([samplePOI, fivePOI].map (reloaded id)) :=
  ⟨by decide, by decide, by decide, by decide,
    loadTable2D_saveTable2D fmtFixed stofFixed id ",".toList 14 [samplePOI, fivePOI]
      (by decide) (by decide) (by decide) (by decide)⟩

/-- The reading loop body of `loadPOI2D` on a line made of a text, the delimiter and
a text, the delimiter occurring first right after the first text. -/
theorem loadPOILine_form {F : Type} (stof : List Char → Option F) (delimiter a b : List Char)
    (x y : F) (hfind : find (a ++ delimiter ++ b) delimiter 0 = some a.length)
    (ha : a ≠ []) (hb : b ≠ []) (hx : stof a = some x) (hy : stof b = some y)
    (hlen : (a ++ delimiter ++ b).length < 2 ^ 64) :
    loadPOILine stof delimiter (a ++ delimiter ++ b) = .ok { x := x, y := y } := by
  have hlen2 : a.length + delimiter.length + b.length < 2 ^ 64 := by
    have := hlen
    simp only [List.length_append] at this
    omega
  have h1 : (a.length + 2 ^ 64 - 0) % 2 ^ 64 = a.length := by
    rw [Nat.sub_zero, Nat.add_mod_right]
    exact Nat.mod_eq_of_lt (by omega)
  have h2 : (a.length + delimiter.length) % 2 ^ 64 = a.length + delimiter.length :=
    Nat.mod_eq_of_lt (by omega)
  have h3 : ((a ++ delimiter ++ b).length + 2 ^ 64 - (a.length + delimiter.length)) % 2 ^ 64
      = b.length := by
    have : (a ++ delimiter ++ b).length + 2 ^ 64 - (a.length + delimiter.length)
        = b.length + 2 ^ 64 := by
      simp only [List.length_append]
      omega
    rw [this, Nat.add_mod_right]
    exact Nat.mod_eq_of_lt (by omega)
  have hs1 : substr (a ++ delimiter ++ b) 0 a.length = .ok a := by
    simp [substr, List.append_assoc]
  have hs2 : substr (a ++ delimiter ++ b) (a.length + delimiter.length) b.length = .ok b := by
    have hdrop : List.drop (a.length + delimiter.length) (a ++ delimiter ++ b) = b := by
      have : a.length + delimiter.length = (a ++ delimiter).length := by simp
      rw [this, List.drop_left]
    simp [substr, hdrop]
  have hp1 : pushVariable stof a ([] : List F) = .ok [x] := by
    simp [pushVariable, ha, hx]
  have hp2 : pushVariable stof b [x] = .ok [x, y] := by
    simp [pushVariable, hb, hy]
  unfold loadPOILine
  simp only [hfind, h1, h2, h3, hs1]
  show (pushVariable stof a [] >>= fun key_buffer => _) = _
  rw [hp1]
  show (substr (a ++ delimiter ++ b) (a.length + delimiter.length) b.length >>= _) = _
  rw [hs2]
  show (pushVariable stof b [x] >>= fun key_buffer => _) = _
  rw [hp2]
  rfl

theorem foldlM_push_prefix {α β : Type} (g : α → Except Fault β) (l : List α)
    (acc out : List β)
    (h : l.foldlM (fun q a => do
      let p ← g a
      pure (q ++ [p])) acc = .ok out) :
    ∃ rest, out = acc ++ rest := by
  induction l generalizing acc with
  | nil =>
    have h3 : (Except.ok acc : Except Fault (List β)) = .ok out := h
    exact ⟨[], by simpa using (Except.ok.inj h3).symm⟩
  | cons c u ih =>
    rw [List.foldlM_cons] at h
    cases hc : g c with
    | error e =>
      rw [hc] at h
      cases h
    | ok pc =>
      rw [hc] at h
      obtain ⟨rest, hrest⟩ := ih (acc ++ [pc]) h
      exact ⟨pc :: rest, by simpa using hrest⟩

theorem foldlM_push_get {α β : Type} (g : α → Except Fault β) (l : List α)
    (acc out : List β)
    (h : l.foldlM (fun q a => do
      let p ← g a
      pure (q ++ [p])) acc = .ok out) :
    ∀ (i : Nat) (a : α), l[i]? = some a →
      ∃ p, out[acc.length + i]? = some p ∧ g a = .ok p := by
  induction l generalizing acc with
  | nil =>
    intro i a hi
    simp at hi
  | cons b t ih =>
    rw [List.foldlM_cons] at h
    cases hg : g b with
    | error e =>
      rw [hg] at h
      cases h
    | ok p =>
      rw [hg] at h
      have h2 : List.foldlM (fun q a => do
          let p ← g a
          pure (q ++ [p])) (acc ++ [p]) t = .ok out := h
      intro i a hi
      cases i with
      | zero =>
        have hab : b = a := by simpa using hi
        subst hab
        refine ⟨p, ?_, hg⟩
        obtain ⟨rest, hrest⟩ := foldlM_push_prefix g t (acc ++ [p]) out h2
        rw [hrest, List.append_assoc, Nat.add_zero,
          List.getElem?_append_right (Nat.le_refl _)]
        simp
      | succ j =>
        have hj : t[j]? = some a := by simpa using hi
        obtain ⟨q, hq, hgq⟩ := ih (acc ++ [p]) h2 j a hj
        refine ⟨q, ?_, hgq⟩
        have : (acc ++ [p]).length + j = acc.length + (j + 1) := by
          simp; omega
        rw [← this]
        exact hq

/-- C9. `loadPOI2D` leaves the first line out and gives one point per following line,
in file order: whenever it returns, it returns as many points as there are lines
after the first, and the point for a line that is a text, the delimiter and a text
(the delimiter occurring first right after the first text, both texts non-empty and
read by `stof`) has its `x` read from the text before the delimiter and its `y` from
the text after it; and it does return when every line after the first is of that
form. -/
theorem loadPOI2D_points {F : Type} (stof : List Char → Option F)
    (delimiter file_in : List Char) :
    (∀ poi_queue : List (Point2D F), loadPOI2D stof delimiter file_in = .ok poi_queue →
      poi_queue.length = ((getlines file_in).drop 1).length ∧
      ∀ (i : Nat) (a b : List Char) (x y : F),
        ((getlines file_in).drop 1)[i]? = some (a ++ delimiter ++ b) →
        find (a ++ delimiter ++ b) delimiter 0 = some a.length →
        a ≠ [] → b ≠ [] → stof a = some x → stof b = some y →
        (a ++ delimiter ++ b).length < 2 ^ 64 →
        poi_queue[i]? = some { x := x, y := y }) ∧
    (∀ rows : List ((List Char × List Char) × Point2D F),
      (getlines file_in).drop 1 = rows.map (fun row => row.1.1 ++ delimiter ++ row.1.2) →
      (∀ row ∈ rows,
        find (row.1.1 ++ delimiter ++ row.1.2) delimiter 0 = some row.1.1.length ∧
        row.1.1 ≠ [] ∧ row.1.2 ≠ [] ∧
        stof row.1.1 = some row.2.x ∧ stof row.1.2 = some row.2.y ∧
        (row.1.1 ++ delimiter ++ row.1.2).length < 2 ^ 64) →
      loadPOI2D stof delimiter file_in = .ok (rows.map (fun row => row.2))) := by
  constructor
  · intro poi_queue h
    constructor
    · have := foldlM_push_length (loadPOILine stof delimiter) _ [] poi_queue h
      simpa using this
    · intro i a b x y hi hfind ha hb hx hy hlen
      obtain ⟨p, hp, hg⟩ := foldlM_push_get (loadPOILine stof delimiter) _ [] poi_queue h i _ hi
      rw [loadPOILine_form stof delimiter a b x y hfind ha hb hx hy hlen] at hg
      have hpe : p = { x := x, y := y } := (Except.ok.inj hg).symm
      rw [← hpe]
      simpa using hp
  · intro rows hlines hrows
    unfold loadPOI2D
    rw [hlines, List.foldlM_map]
    have := foldlM_push_ok
      (fun row : (List Char × List Char) × Point2D F =>
        loadPOILine stof delimiter (row.1.1 ++ delimiter ++ row.1.2))
      (fun row => row.2) rows
      (fun row hrow => by
        obtain ⟨h1, h2, h3, h4, h5, h6⟩ := hrows row hrow
        exact loadPOILine_form stof delimiter row.1.1 row.1.2 row.2.x row.2.y h1 h2 h3 h4 h5 h6)
      []
    simpa using this

theorem loadPOI2D_points_witness :
    (getlines "x,y\n30.5,31\n-1.25,2\n".toList).drop 1
      = [(("30.5".toList, "31".toList), ({ x := 3050000000, y := 3100000000 } : Point2D Int)),
          (("-1.25".toList, "2".toList), { x := -125000000, y := 200000000 })].map
          (fun row => row.1.1 ++ ",".toList ++ row.1.2) ∧
    loadPOI2D stofFixed ",".toList "x,y\n30.5,31\n-1.25,2\n".toList
      = .ok [{ x := 3050000000, y := 3100000000 }, { x := -125000000, y := 200000000 }] :=
  ⟨by decide,
    (loadPOI2D_points stofFixed ",".toList "x,y\n30.5,31\n-1.25,2\n".toList).2
      [(("30.5".toList, "31".toList), { x := 3050000000, y := 3100000000 }),
        (("-1.25".toList, "2".toList), { x := -125000000, y := 200000000 })]
      (by decide) (by decide)⟩

theorem breakOn_none (d s : List Char) (h : breakOn d s = none) : findAux d s 0 = none := by
  induction s with
  | nil =>
    simp only [breakOn] at h
    simp only [findAux]
    split at h
    · cases h
    · rename_i hp
      rw [if_neg hp]
  | cons c t ih =>
    simp only [breakOn] at h
    rw [findAux_cons]
    split at h
    · cases h
    · rename_i hp
      rw [if_neg hp, findAux_shift]
      have ht : breakOn d t = none := by
        cases hb : breakOn d t with
        | none => rfl
        | some ab => rw [hb] at h; cases h
      rw [ih ht]
      rfl

theorem breakOn_some (d s a b : List Char) (h : breakOn d s = some (a, b)) :
    s = a ++ d ++ b ∧ findAux d (a ++ d) 0 = some a.length := by
  induction s generalizing a b with
  | nil =>
    simp only [breakOn] at h
    split at h
    · rename_i hp
      have hab : a = [] ∧ b = [] := by
        have := Option.some.inj h
        exact ⟨(congrArg Prod.fst this).symm, (congrArg Prod.snd this).symm⟩
      obtain ⟨rfl, rfl⟩ := hab
      have hd : d = [] := by
        rw [List.isPrefixOf_iff_prefix] at hp
        exact List.prefix_nil.mp hp
      subst hd
      exact ⟨rfl, rfl⟩
    · cases h
  | cons c t ih =>
    simp only [breakOn] at h
    split at h
    · rename_i hp
      have hab : a = [] ∧ b = (c :: t).drop d.length := by
        have := Option.some.inj h
        exact ⟨(congrArg Prod.fst this).symm, (congrArg Prod.snd this).symm⟩
      obtain ⟨rfl, rfl⟩ := hab
      constructor
      · rw [List.isPrefixOf_iff_prefix] at hp
        rw [List.nil_append]
        exact (List.prefix_iff_eq_append.mp hp).symm
      · apply findAux_of_isPrefixOf
        rw [List.isPrefixOf_iff_prefix]
        simp
    · rename_i hp
      cases hb : breakOn d t with
      | none => rw [hb] at h; cases h
      | some ab =>
        rw [hb] at h
        have hab : a = c :: ab.1 ∧ b = ab.2 := by
          have := Option.some.inj h
          exact ⟨(congrArg Prod.fst this).symm, (congrArg Prod.snd this).symm⟩
        obtain ⟨rfl, rfl⟩ := hab
        obtain ⟨ht, hfind⟩ := ih ab.1 ab.2 (by rw [hb])
        constructor
        · rw [ht]
          simp
        · have e1 : (c :: ab.1) ++ d = c :: (ab.1 ++ d) := rfl
          rw [e1, findAux_cons]
          have hp2 : ¬ d.isPrefixOf (c :: (ab.1 ++ d)) = true := by
            intro hq
            apply hp
            rw [List.isPrefixOf_iff_prefix] at hq ⊢
            rw [ht]
            have : c :: (ab.1 ++ d) <+: c :: (ab.1 ++ d ++ ab.2) := by
              rw [← List.cons_append]
              exact List.prefix_append _ _
            exact List.IsPrefix.trans hq this
          rw [if_neg hp2, findAux_shift, hfind]
          rfl

theorem length_le_flatten (d : List Char) (hd : d ≠ []) (fs : List (List Char)) :
    fs.length ≤ ((fs.map (· ++ d)).flatten).length := by
  have hdpos : 0 < d.length := List.length_pos.mpr hd
  induction fs with
  | nil => simp
  | cons f t ih =>
    simp only [List.map_cons, List.flatten_cons, List.length_append, List.length_cons]
    omega

/-- The fields of a line, for a non-empty delimiter: the line is its fields joined by
the delimiter, every field but the last ends at the first occurrence of the delimiter
behind its start, the last holds no delimiter. -/
theorem splitAux_spec (d : List Char) (hd : d ≠ []) :
    ∀ (fuel : Nat) (s : List Char), s.length ≤ fuel →
      ∃ fs last, splitAux d fuel s = fs ++ [last] ∧
        s = (fs.map (· ++ d)).flatten ++ last ∧
        (∀ f ∈ fs, find (f ++ d) d 0 = some f.length) ∧ find last d 0 = none := by
  have hdpos : 0 < d.length := List.length_pos.mpr hd
  intro fuel
  induction fuel with
  | zero =>
    intro s hs
    have : s = [] := List.length_eq_zero.mp (by omega)
    subst this
    exact ⟨[], [], rfl, rfl, by simp, find_nil d hd⟩
  | succ fuel ih =>
    intro s hs
    cases hb : breakOn d s with
    | none =>
      refine ⟨[], s, ?_, by simp, by simp, ?_⟩
      · simp [splitAux, hb]
      · simpa [find] using breakOn_none d s hb
    | some ab =>
      obtain ⟨hsab, hfind⟩ := breakOn_some d s ab.1 ab.2 (by rw [hb])
      have hlen : ab.2.length ≤ fuel := by
        have := congrArg List.length hsab
        simp only [List.length_append] at this
        omega
      obtain ⟨fs, last, hsplit, hjoin, hfs, hlast⟩ := ih ab.2 hlen
      refine ⟨ab.1 :: fs, last, ?_, ?_, ?_, hlast⟩
      · simp [splitAux, hb, hsplit]
      · rw [hsab, hjoin]
        simp
      · intro f hf
        rcases List.mem_cons.mp hf with rfl | hf
        · simpa [find] using hfind
        · exact hfs f hf

/-- The pushes for fields whose non-empty ones are all read by `stof`: one value per
non-empty field. -/
theorem pushAll_ok {F : Type} (stof : List Char → Option F) (fields : List (List Char))
    (h : ∀ f ∈ fields, f ≠ [] → (stof f).isSome = true) (buf : List F) :
    ∃ parsed, pushAll stof fields buf = .ok (buf ++ parsed) ∧
      parsed.length = (fields.filter (fun field => field ≠ [])).length := by
  induction fields generalizing buf with
  | nil => exact ⟨[], by simp [pushAll_nil], by simp⟩
  | cons f t ih =>
    rw [pushAll_cons]
    by_cases hf : f = []
    · subst hf
      rw [pushVariable_nil]
      obtain ⟨parsed, hp, hl⟩ := ih (fun g hg => h g (List.mem_cons_of_mem _ hg)) buf
      exact ⟨parsed, hp, by simpa using hl⟩
    · have hsome := h f (List.mem_cons_self _ _) hf
      obtain ⟨v, hv⟩ := Option.isSome_iff_exists.mp hsome
      have hpush : pushVariable stof f buf = .ok (buf ++ [v]) := by
        simp [pushVariable, hf, hv]
      rw [hpush]
      obtain ⟨parsed, hp, hl⟩ := ih (fun g hg => h g (List.mem_cons_of_mem _ hg)) (buf ++ [v])
      refine ⟨v :: parsed, ?_, ?_⟩
      · show pushAll stof t (buf ++ [v]) = _
        rw [hp]
        simp
      · simp [hf, hl]

/-- The POI of lines 96-115 for a buffer of at least thirteen values. -/
theorem poiOfKeys_cons13 {F : Type} [Zero F] (k0 k1 k2 k3 k4 k5 k6 k7 k8 k9 k10 k11 k12 : F)
    (rest : List F) :
    poiOfKeys (k0 :: k1 :: k2 :: k3 :: k4 :: k5 :: k6 :: k7 :: k8 :: k9 :: k10 :: k11 :: k12 :: rest)
      = .ok { x := k0, y := k1,
              deformation := { (POI2D.create k0 k1).deformation with u := k2, v := k3 },
              result := ⟨k4, k5, k6, k7, k8, k9⟩,
              strain := ⟨k10, k11, k12⟩ } := by
  simp [poiOfKeys, readKey, Result2D.array_size, StrainVector2D.array_size, List.range,
    List.range.loop, Result2D.setR, StrainVector2D.setE, POI2D.create]
  rfl

/-- The reads of lines 96-113 succeed on a buffer of at least thirteen values. -/
theorem poiOfKeys_long {F : Type} [Zero F] (key_buffer : List F)
    (h : 13 ≤ key_buffer.length) : ∃ poi, poiOfKeys key_buffer = .ok poi := by
  iterate 13
    rcases key_buffer with _ | ⟨k, key_buffer⟩
    · simp at h
      try omega
  exact ⟨_, poiOfKeys_cons13 _ _ _ _ _ _ _ _ _ _ _ _ _ _⟩

/-- The reads of lines 96-113 leave the buffer when it holds fewer than thirteen
values. -/
theorem poiOfKeys_short {F : Type} [Zero F] (key_buffer : List F)
    (h : key_buffer.length < 13) : poiOfKeys key_buffer = .error .out_of_bounds := by
  iterate 13
    rcases key_buffer with _ | ⟨k, key_buffer⟩
    · rfl
  simp at h
  omega


/-- C10. In `loadTable2D`, for a non-empty delimiter and a line whose non-empty fields
are all read by `stof`, the splitting loop ends with one value in `key_buffer` per
non-empty delimiter-separated field of the line (an empty field adds none), and the
reads `key_buffer[0]` .. `key_buffer[4 + |result.r| + |strain.e| - 1]` all stay inside
the buffer exactly when the line has at least that many non-empty fields; otherwise a
read leaves the buffer.  When this holds on every line after the first, the function
returns as many POIs as there are such lines. -/
theorem loadTable2D_reads_in_bounds {F : Type} [Zero F] (stof : List Char → Option F)
    (delimiter : List Char) (hd : delimiter ≠ []) :
    (∀ (data_line : List Char) (fuel : Nat), data_line.length < fuel →
      (∀ f ∈ nonEmptyFields delimiter data_line, (stof f).isSome = true) →
      ∃ key_buffer, tokenLoop stof delimiter data_line fuel 0 [] = .ok key_buffer ∧
        key_buffer.length = (nonEmptyFields delimiter data_line).length ∧
        ((∃ poi, poiOfKeys key_buffer = .ok poi) ↔
          4 + Result2D.array_size + StrainVector2D.array_size
            ≤ (nonEmptyFields delimiter data_line).length) ∧
        (¬ 4 + Result2D.array_size + StrainVector2D.array_size
            ≤ (nonEmptyFields delimiter data_line).length →
          loadTableLine stof fuel delimiter data_line = .error .out_of_bounds)) ∧
    (∀ (file_in : List Char) (fuel : Nat),
      (∀ data_line ∈ (getlines file_in).drop 1, data_line.length < fuel ∧
        (∀ f ∈ nonEmptyFields delimiter data_line, (stof f).isSome = true) ∧
        4 + Result2D.array_size + StrainVector2D.array_size
          ≤ (nonEmptyFields delimiter data_line).length) →
      ∃ poi_queue, loadTable2D stof fuel delimiter file_in = .ok poi_queue ∧
        poi_queue.length = ((getlines file_in).drop 1).length) := by
  have hline : ∀ (data_line : List Char) (fuel : Nat), data_line.length < fuel →
      (∀ f ∈ nonEmptyFields delimiter data_line, (stof f).isSome = true) →
      ∃ key_buffer, tokenLoop stof delimiter data_line fuel 0 [] = .ok key_buffer ∧
        key_buffer.length = (nonEmptyFields delimiter data_line).length := by
    intro data_line fuel hfuel hstof
    obtain ⟨fs, last, hsplit, hjoin, hfs, hlast⟩ :=
      splitAux_spec delimiter hd data_line.length data_line (Nat.le_refl _)
    have hcount : fs.length < fuel := by
      have h1 := length_le_flatten delimiter hd fs
      have h2 := congrArg List.length hjoin
      simp only [List.length_append] at h2
      omega
    have hloop := tokenLoop_fields stof delimiter hd last hlast fs hfs [] [] fuel hcount
    simp only [List.nil_append, List.length_nil] at hloop
    rw [← hjoin] at hloop
    have hfields : splitFields delimiter data_line = fs ++ [last] := hsplit
    obtain ⟨parsed, hparsed, hlen⟩ := pushAll_ok stof (fs ++ [last])
      (by
        intro f hf hne
        apply hstof
        unfold nonEmptyFields
        rw [hfields]
        exact List.mem_filter.mpr ⟨hf, by simpa using hne⟩) []
    refine ⟨parsed, ?_, ?_⟩
    · rw [hloop, hparsed]
      rfl
    · rw [hlen]
      unfold nonEmptyFields
      rw [hfields]
  constructor
  · intro data_line fuel hfuel hstof
    obtain ⟨key_buffer, hloop, hlen⟩ := hline data_line fuel hfuel hstof
    refine ⟨key_buffer, hloop, hlen, ?_, ?_⟩
    · rw [← hlen]
      constructor
      · rintro ⟨poi, hpoi⟩
        by_contra hshort
        rw [poiOfKeys_short key_buffer
          (by simp only [Result2D.array_size, StrainVector2D.array_size] at hshort; omega)] at hpoi
        cases hpoi
      · intro hlong
        exact poiOfKeys_long key_buffer
          (by simp only [Result2D.array_size, StrainVector2D.array_size] at hlong; omega)
    · intro hshort
      unfold loadTableLine
      rw [hloop]
      show poiOfKeys key_buffer = _
      exact poiOfKeys_short key_buffer
        (by simp only [Result2D.array_size, StrainVector2D.array_size] at hshort; omega)
  · intro file_in fuel hall
    have hok : ∀ data_line ∈ (getlines file_in).drop 1,
        ∃ poi, loadTableLine stof fuel delimiter data_line = .ok poi := by
      intro data_line hmem
      obtain ⟨hfuel, hstof, hlong⟩ := hall data_line hmem
      obtain ⟨key_buffer, hloop, hlen⟩ := hline data_line fuel hfuel hstof
      obtain ⟨poi, hpoi⟩ := poiOfKeys_long key_buffer
        (by simp only [Result2D.array_size, StrainVector2D.array_size] at hlong; omega)
      refine ⟨poi, ?_⟩
      unfold loadTableLine
      rw [hloop]
      exact hpoi
    have hrun : ∀ (l : List (List Char)) (acc : List (POI2D F)),
        (∀ data_line ∈ l, ∃ poi, loadTableLine stof fuel delimiter data_line = .ok poi) →
        ∃ out, l.foldlM (fun poi_queue data_line => do
          let current_POI ← loadTableLine stof fuel delimiter data_line
          pure (poi_queue ++ [current_POI])) acc = .ok out := by
      intro l
      induction l with
      | nil => intro acc _; exact ⟨acc, rfl⟩
      | cons a t ih =>
        intro acc hl
        obtain ⟨poi, hpoi⟩ := hl a (List.mem_cons_self _ _)
        rw [List.foldlM_cons, hpoi]
        exact ih (acc ++ [poi]) (fun b hb => hl b (List.mem_cons_of_mem _ hb))
    obtain ⟨out, hout⟩ := hrun _ [] hok
    refine ⟨out, hout, ?_⟩
    have := foldlM_push_length (loadTableLine stof fuel delimiter) _ [] out hout
    simpa using this

set_option maxRecDepth 100000 in
theorem loadTable2D_reads_in_bounds_witness :
    ",".toList ≠ [] ∧
    (∀ data_line ∈ (getlines "x,y\n1,2,,3,4,5,6,7,8,9,10,11,12,13,\n".toList).drop 1,
      data_line.length < 40 ∧
      (∀ f ∈ nonEmptyFields ",".toList data_line, (stofFixed f).isSome = true) ∧
      4 + Result2D.array_size + StrainVector2D.array_size
        ≤ (nonEmptyFields ",".toList data_line).length) ∧
    ∃ poi_queue : List (POI2D Int),
      loadTable2D stofFixed 40 ",".toList "x,y\n1,2,,3,4,5,6,7,8,9,10,11,12,13,\n".toList
        = .ok poi_queue ∧
      poi_queue.length
        = ((getlines "x,y\n1,2,,3,4,5,6,7,8,9,10,11,12,13,\n".toList).drop 1).length :=
  ⟨by decide, by decide,
    (loadTable2D_reads_in_bounds stofFixed ",".toList (by decide)).2
      "x,y\n1,2,,3,4,5,6,7,8,9,10,11,12,13,\n".toList 40 (by decide)⟩


/-! ## The claims on the grid of POIs and on the solver call -/

/-- The element at index `i * n + j` of the concatenation of rows that all have `n`
elements is the element `j` of row `i`. -/
theorem getElem?_flatten_uniform {α : Type} (n : Nat) (rows : List (List α))
    (hrows : ∀ row ∈ rows, row.length = n) (i j : Nat) (hj : j < n) :
    rows.flatten[i * n + j]? = (rows[i]?).bind (fun row => row[j]?) := by
  induction rows generalizing i with
  | nil => simp
  | cons row t ih =>
    have hrow : row.length = n := hrows row (List.mem_cons_self _ _)
    have ht : ∀ r ∈ t, r.length = n := fun r hr => hrows r (List.mem_cons_of_mem _ hr)
    cases i with
    | zero =>
      simp only [List.flatten_cons, Nat.zero_mul, Nat.zero_add, List.getElem?_cons_zero,
        Option.some_bind]
      exact List.getElem?_append_left (by omega)
    | succ k =>
      have hidx : (k + 1) * n + j = row.length + (k * n + j) := by
        rw [hrow, Nat.add_mul, Nat.one_mul]
        omega
      rw [List.flatten_cons, hidx, List.getElem?_append_right (by omega)]
      have hsub : row.length + (k * n + j) - row.length = k * n + j := by omega
      rw [hsub, ih ht k]
      simp

/-- The concatenation of rows that all have `n` elements has `rows.length * n`
elements. -/
theorem length_flatten_uniform {α : Type} (n : Nat) (rows : List (List α))
    (hrows : ∀ row ∈ rows, row.length = n) : rows.flatten.length = rows.length * n := by
  induction rows with
  | nil => simp
  | cons row t ih =>
    have hrow : row.length = n := hrows row (List.mem_cons_self _ _)
    have ht : ∀ r ∈ t, r.length = n := fun r hr => hrows r (List.mem_cons_of_mem _ hr)
    rw [List.flatten_cons, List.length_append, ih ht, hrow, List.length_cons, Nat.add_mul,
      Nat.one_mul, Nat.add_comm]

theorem flatMap_single {α β : Type} (f : α → β) (l : List α) :
    l.flatMap (fun a => [f a]) = l.map f := by
  induction l with
  | nil => rfl
  | cons a t ih => simp [List.flatMap_cons, ih]

/-- The grid of lines 38-46 as rows of POIs, the loop counters being natural
numbers. -/
theorem storePOIs_rows {F : Type} [Zero F] [Add F] [IntCast F] (upper_left_point : Point2D F)
    (poi_number_x poi_number_y grid_space : Int) :
    storePOIs upper_left_point poi_number_x poi_number_y grid_space
      = ((List.range poi_number_y.toNat).map (fun (i : Nat) =>
          (List.range poi_number_x.toNat).map (fun (j : Nat) =>
            (POI2D.create (upper_left_point.x + ((wrapInt32 ((j : Int) * grid_space) : Int) : F))
              (upper_left_point.y + ((wrapInt32 ((i : Int) * grid_space) : Int) : F))
                : POI2D F)))).flatten := by
  rw [storePOIs_eq]
  simp [flatMap_single, List.map_map, Function.comp_def]

/-- An `int` expression whose exact value fits in 32 bits has that value. -/
theorem wrapInt32_of_fits (v : Int) (hlo : -2 ^ 31 ≤ v) (hhi : v < 2 ^ 31) :
    wrapInt32 v = v := by
  unfold wrapInt32
  omega

/-- C14. For non-negative numbers of POIs along x and y and a grid whose offsets
`j * grid_space` and `i * grid_space` fit in an `int` (32 bits), the queue that `main`
creates in lines 38-46 (the queue handed to the estimator) holds
`poi_number_x * poi_number_y` POIs; for `0 ≤ i < poi_number_y` and
`0 ≤ j < poi_number_x` the POI at index `i * poi_number_x + j` is the one the
constructor gives for the location
`(upper_left.x + j * grid_space, upper_left.y + i * grid_space)`: it is located there
and holds nothing else. -/
theorem created_queue_is_grid {F : Type} [Zero F] [Add F] [IntCast F] (s : Settings F)
    (hx : 0 ≤ s.poi_number_x) (hy : 0 ≤ s.poi_number_y)
    (hfitx : ∀ j : Nat, (j : Int) < s.poi_number_x →
      -2 ^ 31 ≤ (j : Int) * s.grid_space ∧ (j : Int) * s.grid_space < 2 ^ 31)
    (hfity : ∀ i : Nat, (i : Int) < s.poi_number_y →
      -2 ^ 31 ≤ (i : Int) * s.grid_space ∧ (i : Int) * s.grid_space < 2 ^ 31) :
    ((createdQueue s).length : Int) = s.poi_number_x * s.poi_number_y ∧
    ∀ (i j : Nat), (i : Int) < s.poi_number_y → (j : Int) < s.poi_number_x →
      ∃ poi : POI2D F,
        (createdQueue s)[i * s.poi_number_x.toNat + j]? = some poi ∧
        poi.x = s.upper_left_point.x + (((j : Int) * s.grid_space : Int) : F) ∧
        poi.y = s.upper_left_point.y + (((i : Int) * s.grid_space : Int) : F) ∧
        poi = POI2D.create poi.x poi.y := by
  obtain ⟨nx, hnx⟩ := Int.eq_ofNat_of_zero_le hx
  obtain ⟨ny, hny⟩ := Int.eq_ofNat_of_zero_le hy
  unfold createdQueue
  rw [storePOIs_rows, hnx, hny]
  simp only [Int.toNat_ofNat]
  constructor
  · rw [length_flatten_uniform nx _ (by
      intro row hrow
      obtain ⟨k, _, rfl⟩ := List.mem_map.mp hrow
      simp)]
    simp [Nat.mul_comm]
  · intro i j hi hj
    have hi2 : i < ny := by exact_mod_cast hi
    have hj2 : j < nx := by exact_mod_cast hj
    have hwj : wrapInt32 ((j : Int) * s.grid_space) = (j : Int) * s.grid_space :=
      wrapInt32_of_fits _ (hfitx j (by rw [hnx]; exact hj)).1 (hfitx j (by rw [hnx]; exact hj)).2
    have hwi : wrapInt32 ((i : Int) * s.grid_space) = (i : Int) * s.grid_space :=
      wrapInt32_of_fits _ (hfity i (by rw [hny]; exact hi)).1 (hfity i (by rw [hny]; exact hi)).2
    refine ⟨POI2D.create (s.upper_left_point.x + (((j : Int) * s.grid_space : Int) : F))
      (s.upper_left_point.y + (((i : Int) * s.grid_space : Int) : F)), ?_, rfl, rfl, rfl⟩
    rw [getElem?_flatten_uniform nx _ (by
      intro row hrow
      obtain ⟨k, _, rfl⟩ := List.mem_map.mp hrow
      simp) i j hj2]
    simp [List.getElem?_range hi2, List.getElem?_range hj2, hi2, hj2, hwi, hwj]

theorem created_queue_is_grid_witness :
    (0 : Int) ≤ (gridSettings).poi_number_x ∧ (0 : Int) ≤ (gridSettings).poi_number_y ∧
    (∀ j : Nat, (j : Int) < (gridSettings).poi_number_x →
      -2 ^ 31 ≤ (j : Int) * (gridSettings).grid_space ∧
      (j : Int) * (gridSettings).grid_space < 2 ^ 31) ∧
    (∀ i : Nat, (i : Int) < (gridSettings).poi_number_y →
      -2 ^ 31 ≤ (i : Int) * (gridSettings).grid_space ∧
      (i : Int) * (gridSettings).grid_space < 2 ^ 31) ∧
    ((createdQueue gridSettings).length : Int)
      = (gridSettings).poi_number_x * (gridSettings).poi_number_y ∧
    ∀ (i j : Nat), (i : Int) < (gridSettings).poi_number_y →
      (j : Int) < (gridSettings).poi_number_x →
      ∃ poi : POI2D Int,
        (createdQueue gridSettings)[i * (gridSettings).poi_number_x.toNat + j]? = some poi ∧
        poi.x = (gridSettings).upper_left_point.x
          + (((j : Int) * (gridSettings).grid_space : Int) : Int) ∧
        poi.y = (gridSettings).upper_left_point.y
          + (((i : Int) * (gridSettings).grid_space : Int) : Int) ∧
        poi = POI2D.create poi.x poi.y :=
  ⟨by decide, by decide,
    (fun j hj => by
      have hj2 : (j : Int) < 2 := hj
      have hg : (gridSettings).grid_space = 5 := rfl
      rw [hg]
      omega),
    (fun i hi => by
      have hi2 : (i : Int) < 3 := hi
      have hg : (gridSettings).grid_space = 5 := rfl
      rw [hg]
      omega),
    created_queue_is_grid gridSettings (by decide) (by decide)
      (fun j hj => by
        have hj2 : (j : Int) < 2 := hj
        have hg : (gridSettings).grid_space = 5 := rfl
        rw [hg]
        omega)
      (fun i hi => by
        have hi2 : (i : Int) < 3 := hi
        have hg : (gridSettings).grid_space = 5 := rfl
        rw [hg]
        omega)⟩


/-- C13. When the GPU images are filled, `main` with `shape_order = 1` calls
`ICGN2D1GPU` once and no other solver, and with `shape_order = 2` it calls
`ICGN2D2GPU` once and no other solver (the events `solve 1` and `solve 2` of the
log), each time on the two filled images, on the GPU queue built from the estimated
POIs and on the configuration whose `subset_rx`, `subset_ry`,
`convergence_criterion` and `stop_condtion` are the subset radii, `max_dp_norm` and
`max_iteration`; when that solver returns `false`, `main` returns `-1` and writes no
file. -/
theorem main_runs_matching_solver {F : Type} [Zero F] [Add F] [IntCast F] (ext : External F)
    (s : Settings F) (gpu_img : ICGNImage F × ICGNImage F)
    (hfill : fillImages s.ref_img s.tar_img (allocImages s.ref_img s.tar_img) = some gpu_img) :
    icgnConf s = { subset_rx := s.subset_radius_x, subset_ry := s.subset_radius_y,
                   convergence_criterion := s.max_dp_norm, stop_condtion := s.max_iteration } ∧
    (s.shape_order = 1 →
      (main ext s).log.filter Event.isSolve
        = [Event.solve 1 gpu_img.1 gpu_img.2 (initGpuQueue (estimatedQueue ext s)).2
            (icgnConf s)] ∧
      ((ext.ICGN2D1GPU gpu_img.1 gpu_img.2 (initGpuQueue (estimatedQueue ext s)).2
          (icgnConf s)).1 = false →
        (main ext s).ret = some (-1) ∧ (main ext s).log.any Event.isFile = false)) ∧
    (s.shape_order = 2 →
      (main ext s).log.filter Event.isSolve
        = [Event.solve 2 gpu_img.1 gpu_img.2 (initGpuQueue (estimatedQueue ext s)).2
            (icgnConf s)] ∧
      ((ext.ICGN2D2GPU gpu_img.1 gpu_img.2 (initGpuQueue (estimatedQueue ext s)).2
          (icgnConf s)).1 = false →
        (main ext s).ret = some (-1) ∧ (main ext s).log.any Event.isFile = false)) := by
  have hrun : solverRun ext s gpu_img = runSolver ext s.shape_order gpu_img.1 gpu_img.2
    (initGpuQueue (estimatedQueue ext s)).2 (icgnConf s)
    [Event.estimate s.subset_radius_x s.subset_radius_y (createdQueue s)] := rfl
  have hcases := runSolver_cases ext s.shape_order gpu_img.1 gpu_img.2
    (initGpuQueue (estimatedQueue ext s)).2 (icgnConf s)
    [Event.estimate s.subset_radius_x s.subset_radius_y (createdQueue s)]
  refine ⟨rfl, ?_, ?_⟩
  · intro h1
    rcases hcases with ⟨_, hr⟩ | ⟨h2, _⟩ | ⟨hn1, _, _⟩
    · unfold main
      simp only [hfill]
      rw [hrun, hr]
      cases hres : (ext.ICGN2D1GPU gpu_img.1 gpu_img.2
          (initGpuQueue (estimatedQueue ext s)).2 (icgnConf s)).1
      · simp [Event.isSolve, Event.isFile]
      · simp only [if_true]
        cases transferResults (initGpuQueue (estimatedQueue ext s)).1
          (ext.ICGN2D1GPU gpu_img.1 gpu_img.2 (initGpuQueue (estimatedQueue ext s)).2
            (icgnConf s)).2 <;>
          simp [Event.isSolve, saveResults]
    · rw [h1] at h2; cases h2
    · exact absurd h1 hn1
  · intro h2
    rcases hcases with ⟨h1, _⟩ | ⟨_, hr⟩ | ⟨_, hn2, _⟩
    · rw [h2] at h1; cases h1
    · unfold main
      simp only [hfill]
      rw [hrun, hr]
      cases hres : (ext.ICGN2D2GPU gpu_img.1 gpu_img.2
          (initGpuQueue (estimatedQueue ext s)).2 (icgnConf s)).1
      · simp [Event.isSolve, Event.isFile]
      · simp only [if_true]
        cases transferResults (initGpuQueue (estimatedQueue ext s)).1
          (ext.ICGN2D2GPU gpu_img.1 gpu_img.2 (initGpuQueue (estimatedQueue ext s)).2
            (icgnConf s)).2 <;>
          simp [Event.isSolve, saveResults]
    · exact absurd h2 hn2

theorem main_runs_matching_solver_witness :
    fillImages (sampleSettings 16 1).ref_img (sampleSettings 16 1).tar_img
        (allocImages (sampleSettings 16 1).ref_img (sampleSettings 16 1).tar_img)
      = some (⟨3, 2, [some 0, some 1, some 2, some 10, some 11, some 12]⟩,
          ⟨3, 2, [some 0, some 1, some 2, some 10, some 11, some 12]⟩) ∧
    (sampleSettings 16 1).shape_order = 1 ∧
    (failingExternal.ICGN2D1GPU ⟨3, 2, [some 0, some 1, some 2, some 10, some 11, some 12]⟩
        ⟨3, 2, [some 0, some 1, some 2, some 10, some 11, some 12]⟩
        (initGpuQueue (estimatedQueue failingExternal (sampleSettings 16 1))).2
        (icgnConf (sampleSettings 16 1))).1 = false ∧
    (main failingExternal (sampleSettings 16 1)).log.filter Event.isSolve
      = [Event.solve 1 ⟨3, 2, [some 0, some 1, some 2, some 10, some 11, some 12]⟩
          ⟨3, 2, [some 0, some 1, some 2, some 10, some 11, some 12]⟩
          (initGpuQueue (estimatedQueue failingExternal (sampleSettings 16 1))).2
          (icgnConf (sampleSettings 16 1))] ∧
    (main failingExternal (sampleSettings 16 1)).ret = some (-1) ∧
    (main failingExternal (sampleSettings 16 1)).log.any Event.isFile = false :=
  ⟨by decide, rfl, rfl,
    ((main_runs_matching_solver failingExternal (sampleSettings 16 1)
      (⟨3, 2, [some 0, some 1, some 2, some 10, some 11, some 12]⟩,
        ⟨3, 2, [some 0, some 1, some 2, some 10, some 11, some 12]⟩) (by decide)).2.1 rfl).1,
    (((main_runs_matching_solver failingExternal (sampleSettings 16 1)
      (⟨3, 2, [some 0, some 1, some 2, some 10, some 11, some 12]⟩,
        ⟨3, 2, [some 0, some 1, some 2, some 10, some 11, some 12]⟩) (by decide)).2.1 rfl).2
      rfl)⟩


/-! ## The claim on the end of the splitting loop -/

/-- One pass of the splitting loop, in terms of `position2Of` and `nextPosition1`. -/
theorem tokenLoop_pass {F : Type} (stof : List Char → Option F) (d line : List Char)
    (fuel position1 : Nat) (key_buffer : List F) :
    tokenLoop stof d line (fuel + 1) position1 key_buffer =
      (substr line position1 (position2Of d line position1 - position1)) >>= fun token =>
        pushVariable stof token key_buffer >>= fun key_buffer =>
          if position2Of d line position1 < line.length ∧
              nextPosition1 d line position1 < line.length then
            tokenLoop stof d line fuel (nextPosition1 d line position1) key_buffer
          else pure key_buffer := rfl

/-- The index that `find` returns is not before the index the search starts at. -/
theorem find_ge (line d : List Char) (p q : Nat) (h : find line d p = some q) : p ≤ q := by
  unfold find at h
  split at h
  · rw [findAux_shift] at h
    cases hx : findAux d (List.drop p line) 0 with
    | none => rw [hx] at h; cases h
    | some x =>
      rw [hx] at h
      have := Option.some.inj h
      simp at this
      omega
  · cases h

/-- A pass after which the loop goes on ends with `position1` moved forward by at
least the length of the delimiter. -/
theorem nextPosition1_ge (d line : List Char) (p : Nat)
    (hgo : position2Of d line p < line.length) :
    p + d.length ≤ nextPosition1 d line p := by
  unfold nextPosition1
  unfold position2Of at hgo ⊢
  cases hf : find line d p with
  | none =>
    rw [hf] at hgo
    simp at hgo
  | some q =>
    have := find_ge line d p q hf
    simp only
    omega

theorem passStarts_bounds (d line : List Char) (hd : d ≠ []) :
    ∀ (fuel p : Nat),
      (∀ q ∈ passStarts d line fuel p, p ≤ q) ∧
      List.Pairwise (· < ·) (passStarts d line fuel p) ∧
      (passStarts d line fuel p).length ≤ max 1 (line.length - p) := by
  have hdpos : 0 < d.length := List.length_pos.mpr hd
  intro fuel
  induction fuel with
  | zero =>
    intro p
    simp [passStarts]
  | succ fuel ih =>
    intro p
    by_cases hgo : position2Of d line p < line.length ∧ nextPosition1 d line p < line.length
    · have hnext := nextPosition1_ge d line p hgo.1
      obtain ⟨hge, hpw, hlen⟩ := ih (nextPosition1 d line p)
      simp only [passStarts, if_pos hgo]
      refine ⟨?_, ?_, ?_⟩
      · intro q hq
        rcases List.mem_cons.mp hq with rfl | hq
        · exact Nat.le_refl _
        · have := hge q hq
          omega
      · rw [List.pairwise_cons]
        refine ⟨?_, hpw⟩
        intro q hq
        have := hge q hq
        omega
      · simp only [List.length_cons]
        have h2 := hgo.2
        omega
    · simp only [passStarts, if_neg hgo]
      refine ⟨by simp, by simp, ?_⟩
      simp only [List.length_cons, List.length_nil]
      omega

theorem tokenLoop_fuel_enough {F : Type} (stof : List Char → Option F) (d line : List Char)
    (hd : d ≠ []) :
    ∀ (fuel p : Nat) (buf : List F), max 1 (line.length - p) ≤ fuel →
      tokenLoop stof d line fuel p buf ≠ .error .no_fuel := by
  have hdpos : 0 < d.length := List.length_pos.mpr hd
  intro fuel
  induction fuel with
  | zero =>
    intro p buf h
    omega
  | succ fuel ih =>
    intro p buf h
    rw [tokenLoop_pass]
    cases hs : substr line p (position2Of d line p - p) with
    | error e =>
      have he : e = Fault.out_of_range := by
        unfold substr at hs
        split at hs
        · cases hs
        · exact (Except.error.inj hs).symm
      subst he
      show (Except.error Fault.out_of_range : Except Fault (List F)) ≠ _
      intro hcontra
      cases hcontra
    | ok token =>
      show (pushVariable stof token buf >>= fun key_buffer =>
          if position2Of d line p < line.length ∧ nextPosition1 d line p < line.length then
            tokenLoop stof d line fuel (nextPosition1 d line p) key_buffer
          else pure key_buffer) ≠ _
      cases hp : pushVariable stof token buf with
      | error e =>
        have he : e = Fault.stof_throws := by
          unfold pushVariable at hp
          split at hp
          · split at hp
            · cases hp
            · exact (Except.error.inj hp).symm
          · cases hp
        subst he
        show (Except.error Fault.stof_throws : Except Fault (List F)) ≠ _
        intro hcontra
        cases hcontra
      | ok buf1 =>
        show (if position2Of d line p < line.length ∧ nextPosition1 d line p < line.length then
            tokenLoop stof d line fuel (nextPosition1 d line p) buf1
          else pure buf1) ≠ _
        split
        · rename_i hgo
          have hnext := nextPosition1_ge d line p hgo.1
          have h2 := hgo.2
          exact ih (nextPosition1 d line p) buf1 (by omega)
        · show (Except.ok buf1 : Except Fault (List F)) ≠ _
          intro hcontra
          cases hcontra

/-- With an empty delimiter and a line that is not empty, `position1` stays at `0` and
no number of passes ends the loop. -/
theorem tokenLoop_empty_delimiter {F : Type} (stof : List Char → Option F) (line : List Char)
    (hline : line ≠ []) :
    ∀ (fuel : Nat) (buf : List F),
      tokenLoop stof [] line fuel 0 buf = .error .no_fuel ∧
      passStarts [] line fuel 0 = List.replicate fuel 0 := by
  have hpos : 0 < line.length := List.length_pos.mpr hline
  have hfind : find line [] 0 = some 0 := by
    unfold find
    rw [if_pos (Nat.zero_le _)]
    exact findAux_of_isPrefixOf [] _ 0 (by simp [List.isPrefixOf])
  have hp2 : position2Of [] line 0 = 0 := by
    unfold position2Of
    rw [hfind]
  have hnext : nextPosition1 [] line 0 = 0 := by
    unfold nextPosition1
    rw [hp2]
    rfl
  intro fuel
  induction fuel with
  | zero => intro buf; exact ⟨rfl, rfl⟩
  | succ fuel ih =>
    intro buf
    constructor
    · rw [tokenLoop_pass, hp2, hnext]
      have hs : substr line 0 (0 - 0) = .ok [] := by
        simp [substr]
      rw [hs]
      show (pushVariable stof [] buf >>= fun key_buffer => _) = _
      rw [pushVariable_nil]
      show (if 0 < line.length ∧ 0 < line.length then tokenLoop stof [] line fuel 0 buf
        else pure buf) = _
      rw [if_pos ⟨hpos, hpos⟩]
      exact (ih buf).1
    · simp only [passStarts, hp2, hnext, if_pos (And.intro hpos hpos)]
      rw [(ih buf).2]
      rfl

/-- A loop that is not over after `fuel` passes has a pass number `fuel + 1`. -/
theorem passStarts_of_no_fuel {F : Type} (stof : List Char → Option F) (d line : List Char) :
    ∀ (fuel p : Nat) (buf : List F), tokenLoop stof d line fuel p buf = .error .no_fuel →
      (passStarts d line (fuel + 1) p).length = fuel + 1 := by
  intro fuel
  induction fuel with
  | zero =>
    intro p buf _
    simp only [passStarts]
    split <;> rfl
  | succ fuel ih =>
    intro p buf h
    rw [tokenLoop_pass] at h
    cases hs : substr line p (position2Of d line p - p) with
    | error e =>
      rw [hs] at h
      have he : e = Fault.out_of_range := by
        unfold substr at hs
        split at hs
        · cases hs
        · exact (Except.error.inj hs).symm
      subst he
      have h2 : (Except.error Fault.out_of_range : Except Fault (List F)) = .error .no_fuel := h
      cases h2
    | ok token =>
      rw [hs] at h
      have h1 : (pushVariable stof token buf >>= fun key_buffer =>
          if position2Of d line p < line.length ∧ nextPosition1 d line p < line.length then
            tokenLoop stof d line fuel (nextPosition1 d line p) key_buffer
          else pure key_buffer) = .error .no_fuel := h
      cases hp : pushVariable stof token buf with
      | error e =>
        rw [hp] at h1
        have he : e = Fault.stof_throws := by
          unfold pushVariable at hp
          split at hp
          · split at hp
            · cases hp
            · exact (Except.error.inj hp).symm
          · cases hp
        subst he
        have h2 : (Except.error Fault.stof_throws : Except Fault (List F)) = .error .no_fuel := h1
        cases h2
      | ok buf1 =>
        rw [hp] at h1
        have h2 : (if position2Of d line p < line.length ∧
              nextPosition1 d line p < line.length then
            tokenLoop stof d line fuel (nextPosition1 d line p) buf1
          else pure buf1) = .error .no_fuel := h1
        by_cases hgo : position2Of d line p < line.length ∧ nextPosition1 d line p < line.length
        · rw [if_pos hgo] at h2
          have := ih (nextPosition1 d line p) buf1 h2
          rw [passStarts, if_pos hgo, List.length_cons, this]
        · rw [if_neg hgo] at h2
          have h3 : (Except.ok buf1 : Except Fault (List F)) = .error .no_fuel := h2
          cases h3

/-- C11 as stated fails on the empty line: the body of the do-while loop runs once, so
the loop is not over after `length(line) = 0` passes; it is over after one pass. -/
theorem tokenLoop_pass_on_empty_line :
    ",".toList ≠ [] ∧ ([] : List Char).length = 0 ∧
    passStarts ",".toList [] 1 0 = [0] ∧
    tokenLoop stofFixed ",".toList [] 0 0 [] = .error .no_fuel ∧
    tokenLoop stofFixed ",".toList [] 1 0 [] = .ok [] :=
  ⟨by decide, rfl, by decide, by rfl, by rfl⟩

/-- C11, amended. For a non-empty delimiter the splitting loop of `loadTable2D` (and of
`loadTable2DS`) ends on every line: `position1` is strictly larger at the start of
each pass than at the start of the pass before, and the loop makes at most
`max 1 (length line)` passes (one pass on the empty line); a loop that is not over
after `fuel` passes has a pass number `fuel + 1`.  For a line that is not empty the
delimiter has to be non-empty: with the empty delimiter `position1` stays at `0` and
the loop is not over after any number of passes. -/
theorem tokenLoop_ends {F : Type} (stof : List Char → Option F)
    (delimiter data_line : List Char) :
    (delimiter ≠ [] →
      (∀ position1, position2Of delimiter data_line position1 < data_line.length →
        position1 < nextPosition1 delimiter data_line position1) ∧
      (∀ fuel, List.Pairwise (· < ·) (passStarts delimiter data_line fuel 0)) ∧
      (∀ fuel, (passStarts delimiter data_line fuel 0).length ≤ max 1 data_line.length) ∧
      (∀ fuel (key_buffer : List F), max 1 data_line.length ≤ fuel →
        tokenLoop stof delimiter data_line fuel 0 key_buffer ≠ .error .no_fuel) ∧
      (∀ fuel (key_buffer : List F),
        tokenLoop stof delimiter data_line fuel 0 key_buffer = .error .no_fuel →
        (passStarts delimiter data_line (fuel + 1) 0).length = fuel + 1)) ∧
    (data_line ≠ [] →
      ∀ fuel (key_buffer : List F),
        tokenLoop stof [] data_line fuel 0 key_buffer = .error .no_fuel ∧
        passStarts [] data_line fuel 0 = List.replicate fuel 0) := by
  constructor
  · intro hd
    have hdpos : 0 < delimiter.length := List.length_pos.mpr hd
    refine ⟨?_, ?_, ?_, ?_, ?_⟩
    · intro position1 hgo
      have := nextPosition1_ge delimiter data_line position1 hgo
      omega
    · intro fuel
      exact (passStarts_bounds delimiter data_line hd fuel 0).2.1
    · intro fuel
      simpa using (passStarts_bounds delimiter data_line hd fuel 0).2.2
    · intro fuel key_buffer hfuel
      exact tokenLoop_fuel_enough stof delimiter data_line hd fuel 0 key_buffer
        (by simpa using hfuel)
    · intro fuel key_buffer h
      exact passStarts_of_no_fuel stof delimiter data_line fuel 0 key_buffer h
  · intro hline fuel key_buffer
    exact tokenLoop_empty_delimiter stof data_line hline fuel key_buffer

theorem tokenLoop_ends_witness :
    ",".toList ≠ [] ∧ "1,,2,".toList ≠ [] ∧
    List.Pairwise (· < ·) (passStarts ",".toList "1,,2,".toList 9 0) ∧
    (passStarts ",".toList "1,,2,".toList 9 0).length ≤ max 1 "1,,2,".toList.length ∧
    tokenLoop stofFixed ",".toList "1,,2,".toList 5 0 [] ≠ .error .no_fuel ∧
    tokenLoop stofFixed [] "1,,2,".toList 9 0 [] = .error .no_fuel :=
  ⟨by decide, by decide,
    ((tokenLoop_ends stofFixed ",".toList "1,,2,".toList).1 (by decide)).2.1 9,
    ((tokenLoop_ends stofFixed ",".toList "1,,2,".toList).1 (by decide)).2.2.1 9,
    ((tokenLoop_ends stofFixed ",".toList "1,,2,".toList).1 (by decide)).2.2.2.1 5 []
      (by decide),
    ((tokenLoop_ends stofFixed ",".toList "1,,2,".toList).2 (by decide) 9 []).1⟩


/-! ## The claim on `saveMap2D` -/

/-- The loop of one `case` on POIs that all fall inside the matrix: it runs to its end
and leaves in every cell the field of the last POI that falls in it, or what the cell
held. -/
theorem fillMap_cells {F : Type} (toInt : F → Int) (field : POI2D F → F) :
    ∀ (poi_queue : List (POI2D F)) (output_map : MatrixXf F),
      (∀ poi ∈ poi_queue, 0 ≤ toInt poi.y ∧ toInt poi.y < output_map.rows ∧
        0 ≤ toInt poi.x ∧ toInt poi.x < output_map.cols) →
      ∃ filled, fillMap toInt field poi_queue output_map = .ok filled ∧
        filled.rows = output_map.rows ∧ filled.cols = output_map.cols ∧
        ∀ r c : Nat, filled.coeff r c =
          match poi_queue.reverse.find?
              (fun poi => decide (toInt poi.y = (r : Int) ∧ toInt poi.x = (c : Int))) with
          | some poi => field poi
          | none => output_map.coeff r c := by
  intro poi_queue
  induction poi_queue with
  | nil =>
    intro output_map _
    exact ⟨output_map, rfl, rfl, rfl, by intro r c; rfl⟩
  | cons p t ih =>
    intro output_map hin
    obtain ⟨hy0, hy1, hx0, hx1⟩ := hin p (List.mem_cons_self _ _)
    have hassign : output_map.assign (toInt p.y) (toInt p.x) (field p)
        = .ok { output_map with
                coeff := fun r' c' =>
                  if r' = (toInt p.y).toNat ∧ c' = (toInt p.x).toNat then field p
                  else output_map.coeff r' c' } := by
      unfold MatrixXf.assign
      rw [if_pos ⟨hy0, hy1, hx0, hx1⟩]
    obtain ⟨filled, hfill, hrows, hcols, hcells⟩ := ih
      { output_map with
        coeff := fun r' c' =>
          if r' = (toInt p.y).toNat ∧ c' = (toInt p.x).toNat then field p
          else output_map.coeff r' c' }
      (fun poi hpoi => hin poi (List.mem_cons_of_mem _ hpoi))
    refine ⟨filled, ?_, hrows, hcols, ?_⟩
    · unfold fillMap
      rw [List.foldlM_cons, hassign]
      exact hfill
    · intro r c
      rw [hcells r c, List.reverse_cons, List.find?_append]
      cases hfind : t.reverse.find?
          (fun poi => decide (toInt poi.y = (r : Int) ∧ toInt poi.x = (c : Int))) with
      | some poi => rfl
      | none =>
        have hiff : (r = (toInt p.y).toNat ∧ c = (toInt p.x).toNat)
            ↔ (toInt p.y = (r : Int) ∧ toInt p.x = (c : Int)) := by
          constructor
          · rintro ⟨h1, h2⟩
            constructor <;> omega
          · rintro ⟨h1, h2⟩
            constructor <;> omega
        by_cases hmatch : toInt p.y = (r : Int) ∧ toInt p.x = (c : Int)
        · have hdec : decide (toInt p.y = (r : Int) ∧ toInt p.x = (c : Int)) = true :=
            decide_eq_true hmatch
          simp only [Option.none_or, List.find?_cons, hdec, List.find?_nil]
          rw [if_pos (hiff.mpr hmatch)]
        · have hno : ¬ (r = (toInt p.y).toNat ∧ c = (toInt p.x).toNat) :=
            fun h => hmatch (hiff.mp h)
          have hdec : decide (toInt p.y = (r : Int) ∧ toInt p.x = (c : Int)) = false :=
            decide_eq_false hmatch
          simp only [Option.none_or, List.find?_cons, hdec, List.find?_nil]
          rw [if_neg hno]

/-- The characters of lines 300-311 are the table of the rows of the matrix. -/
theorem writeMap_eq_tableText {F : Type} (fmt : F → List Char) (delimiter : List Char)
    (width height : Nat) (output_map : MatrixXf F) :
    writeMap fmt delimiter true width height output_map
      = tableText delimiter ((List.range height).map (fun r =>
          (List.range width).map (fun c => fmt (output_map.coeff r c)))) := by
  unfold writeMap
  simp only [if_true]
  have hstep : ∀ (file_out : List Char) (r : Nat),
      ((List.range width).foldl (fun file_out c =>
        file_out ++ fmt (output_map.coeff r c) ++ delimiter) file_out) ++ ['\n']
      = file_out ++ (tableLine delimiter
          ((List.range width).map (fun c => fmt (output_map.coeff r c))) ++ ['\n']) := by
    intro file_out r
    rw [foldl_fields (fun c => fmt (output_map.coeff r c)) delimiter (List.range width)]
    simp
  simp only [hstep]
  rw [foldl_append_lists]
  simp [tableText, List.map_map, Function.comp_def]

/-- The `switch` of `saveMap2D` runs the loop for the field that the claim gives for
the code, and returns for every other code. -/
theorem switchMap_eq {F : Type} (toInt : F → Int) (poi_queue : List (POI2D F)) (code : Char)
    (output_map : MatrixXf F) :
    switchMap toInt poi_queue code output_map
      = match mapField code with
        | some field => (fillMap toInt field poi_queue output_map).map some
        | none => .ok none := by
  unfold switchMap mapField
  by_cases hu : code = 'u'
  · subst hu; rfl
  by_cases hv : code = 'v'
  · subst hv; rfl
  by_cases hc : code = 'c'
  · subst hc; rfl
  by_cases hd : code = 'd'
  · subst hd; rfl
  by_cases hi : code = 'i'
  · subst hi; rfl
  by_cases hf : code = 'f'
  · subst hf; rfl
  by_cases hx : code = 'x'
  · subst hx; rfl
  by_cases hy : code = 'y'
  · subst hy; rfl
  by_cases hr : code = 'r'
  · subst hr; rfl
  simp only [if_neg hu, if_neg hv, if_neg hc, if_neg hd, if_neg hi, if_neg hf, if_neg hx,
    if_neg hy, if_neg hr]
  have hne : ∀ k : Char, code ≠ k → (code == k) = false := by
    intro k hk
    simpa using hk
  simp [List.lookup, hne _ hu, hne _ hv, hne _ hc, hne _ hd, hne _ hi, hne _ hf, hne _ hx,
    hne _ hy, hne _ hr]

/-- C12. `saveMap2D` with a variable code among `u, v, c, d, i, f, x, y, r` (standing for
`u, v, zncc, convergence, iteration, feature, exx, eyy, exy`) and POIs whose
coordinates cut to integers lie in `[0, width) × [0, height)` writes `height` lines of
`width` values, each value followed by the delimiter and each line ended by a line
feed; the value at row `r`, column `c` is the field for that code of the last POI of
the queue with `(int)y = r` and `(int)x = c`, and `0` without such a POI.  With any
other code it returns before it opens the file. -/
theorem saveMap2D_cells {F : Type} [Zero F] (fmt : F → List Char) (toInt : F → Int)
    (delimiter : List Char) (width height : Nat) (poi_queue : List (POI2D F)) :
    (∀ (code : Char) (field : POI2D F → F), mapField code = some field →
      (∀ poi ∈ poi_queue, 0 ≤ toInt poi.x ∧ toInt poi.x < width ∧
        0 ≤ toInt poi.y ∧ toInt poi.y < height) →
      saveMap2D fmt toInt delimiter true width height poi_queue code
        = .ok (some (tableText delimiter ((List.range height).map (fun r =>
            (List.range width).map (fun c => fmt (lastAt toInt field poi_queue r c))))))) ∧
    (∀ (code : Char) (is_open : Bool),
      code ∉ ['u', 'v', 'c', 'd', 'i', 'f', 'x', 'y', 'r'] →
      saveMap2D fmt toInt delimiter is_open width height poi_queue code = .ok none) ∧
    ((mapField 'u' : Option (POI2D F → F)) = some (fun poi => poi.deformation.u) ∧
      (mapField 'v' : Option (POI2D F → F)) = some (fun poi => poi.deformation.v) ∧
      (mapField 'c' : Option (POI2D F → F)) = some (fun poi => poi.result.zncc) ∧
      (mapField 'd' : Option (POI2D F → F)) = some (fun poi => poi.result.convergence) ∧
      (mapField 'i' : Option (POI2D F → F)) = some (fun poi => poi.result.iteration) ∧
      (mapField 'f' : Option (POI2D F → F)) = some (fun poi => poi.result.feature) ∧
      (mapField 'x' : Option (POI2D F → F)) = some (fun poi => poi.strain.exx) ∧
      (mapField 'y' : Option (POI2D F → F)) = some (fun poi => poi.strain.eyy) ∧
      (mapField 'r' : Option (POI2D F → F)) = some (fun poi => poi.strain.exy)) := by
  refine ⟨?_, ?_, ⟨rfl, rfl, rfl, rfl, rfl, rfl, rfl, rfl, rfl⟩⟩
  · intro code field hfield hin
    obtain ⟨filled, hfill, _, _, hcells⟩ := fillMap_cells toInt field poi_queue
      (MatrixXf.Zero height width)
      (fun poi hpoi => by
        obtain ⟨h1, h2, h3, h4⟩ := hin poi hpoi
        exact ⟨h3, h4, h1, h2⟩)
    unfold saveMap2D
    dsimp only
    rw [switchMap_eq, hfield]
    simp only [hfill]
    show Except.ok (some (writeMap fmt delimiter true width height filled)) = _
    rw [writeMap_eq_tableText]
    have hrows : (fun r => (List.range width).map (fun c => fmt (filled.coeff r c)))
        = (fun r => (List.range width).map
            (fun c => fmt (lastAt toInt field poi_queue r c))) := by
      funext r
      congr 1
      funext c
      rw [hcells r c]
      rfl
    rw [hrows]
  · intro code is_open hcode
    have hnone : (mapField code : Option (POI2D F → F)) = none := by
      have hne : ∀ k : Char, k ∈ ['u', 'v', 'c', 'd', 'i', 'f', 'x', 'y', 'r'] →
          (code == k) = false := by
        intro k hk
        have : code ≠ k := fun h => hcode (h ▸ hk)
        simpa using this
      unfold mapField
      simp [List.lookup, hne]
    unfold saveMap2D
    dsimp only
    rw [switchMap_eq, hnone]
    rfl

theorem saveMap2D_cells_witness :
    (mapField 'u' : Option (POI2D Int → Int)) = some (fun poi => poi.deformation.u) ∧
    (∀ poi ∈ mapQueue, 0 ≤ truncFixed poi.x ∧ truncFixed poi.x < (3 : Nat) ∧
      0 ≤ truncFixed poi.y ∧ truncFixed poi.y < (2 : Nat)) ∧
    'q' ∉ ['u', 'v', 'c', 'd', 'i', 'f', 'x', 'y', 'r'] ∧
    saveMap2D fmtFixed truncFixed ",".toList true 3 2 mapQueue 'u'
      = .ok (some (tableText ",".toList ((List.range 2).map (fun r =>
          (List.range 3).map (fun c =>
            fmtFixed (lastAt truncFixed (fun poi => poi.deformation.u) mapQueue r c)))))) ∧
    saveMap2D fmtFixed truncFixed ",".toList true 3 2 mapQueue 'q' = .ok none :=
  ⟨rfl, by decide, by decide,
    (saveMap2D_cells fmtFixed truncFixed ",".toList 3 2 mapQueue).1 'u'
      (fun poi => poi.deformation.u) rfl (by decide),
    (saveMap2D_cells fmtFixed truncFixed ",".toList 3 2 mapQueue).2.1 'q' true (by decide)⟩


end OpenCorr
